import Mathlib

/-!
The snapshot-diff-report loop of kube-watch-neat-diff

A shallow embedding of `main.go`: the report formatter (`colorize`,
`formatValue`, `formatDiffOutput`) and the body of the watch loop of `main`,
followed by the properties proved about them.

Conventions of the embedding.

* A Go `string` holding valid UTF-8 is a Lean `String`; `len(s)` is the number
  of UTF-8 bytes (`String.utf8ByteSize`), and the precision of `%.97s` counts
  code points.
* A decoded JSON value (`interface{}`) is a `Value`.  A Go map is a list of
  key/value pairs with distinct keys; the order of the list is the order in
  which a `range` loop over the map visits the keys in the run considered
  (Go leaves that order unspecified).
* `float64` is kept abstract (`Float64`), and the text `fmt.Sprintf("%v", x)`
  of a float is a parameter `fmtFloat` of the formatter.
* The libraries the loop calls (`encoding/json`, `kubectl-neat`, `r3labs/diff`)
  are the fields of an environment `Env`.  `mainLoop` runs the iteration on
  the items of the successive calls of `dec.Decode`; `mainFor` runs the loop
  through the `json.Decoder`, which keeps a syntax error for good.
-/

namespace KubeWatch

/-! ## Data model -/

/-- An IEEE-754 double, identified by its bit pattern. -/
structure Float64 where
  bits : Nat
  deriving DecidableEq, Repr

/-- A decoded JSON value, as `encoding/json` stores it in an `interface{}`:
`nil`, `bool`, `float64`, `string`, `[]interface{}` or
`map[string]interface{}`. -/
inductive Value where
  | null : Value
  | bool (b : Bool) : Value
  | num (x : Float64) : Value
  | str (s : String) : Value
  | arr (xs : List Value) : Value
  | obj (kvs : List (String × Value)) : Value

/-- The content of a `map[string]interface{}`. -/
abbrev Obj := List (String × Value)

/-- The constants `diff.CREATE`, `diff.UPDATE`, `diff.DELETE` of r3labs/diff. -/
def CREATE : String := "create"
def UPDATE : String := "update"
def DELETE : String := "delete"

/-- A `diff.Change`: the fields `Type` (here `Typ`), `Path`, `From`, `To`. -/
structure Change where
  Typ : String
  Path : List String
  From : Value
  To : Value

/-- A `diff.Changelog`. -/
abbrev Changelog := List Change

/-! ## The report formatter -/

def Reset : String := "\x1b[0m"
def Bold : String := "\x1b[1m"
def Red : String := "\x1b[31m"
def Green : String := "\x1b[32m"
def Yellow : String := "\x1b[33m"
def Cyan : String := "\x1b[36m"
def White : String := "\x1b[37m"

/-- The function `colorize`; `noColor` is the flag `*noColor`. -/
def colorize (noColor : Bool) (text color : String) : String :=
  if noColor then text else color ++ text ++ Reset

/-- The text `fmt.Sprintf("%.97s", s)`: the first 97 code points of `s`. -/
def sprintPrec97 (s : String) : String := String.mk (s.data.take 97)

/-- The text `strings.Repeat("=", n)`. -/
def repeatEq (n : Nat) : String := String.mk (List.replicate n '=')

/-- The `default` branch of `formatValue`, applied to `str = Sprintf("%v", v)`. -/
def formatDefault (str : String) : String :=
  if str.utf8ByteSize > 100 then sprintPrec97 str ++ "..." else str

/-- The function `formatValue`. -/
def formatValue (fmtFloat : Float64 → String) : Value → String
  | .null => "<nil>"
  | .str v =>
    if v.utf8ByteSize > 100 then sprintPrec97 v ++ "..."
    else "\"" ++ v ++ "\""
  | .obj v =>
    let keys := v.map Prod.fst
    if keys.length > 3 then
      "map[" ++ ", ".intercalate (keys.take 3) ++ "... (" ++ toString keys.length ++ " keys)]"
    else "map[" ++ ", ".intercalate keys ++ "]"
  | .arr v => "array[" ++ toString v.length ++ " items]"
  | .bool b => formatDefault (if b then "true" else "false")
  | .num x => formatDefault (fmtFloat x)

/-- The path label computed at the top of the loop body of `formatDiffOutput`. -/
def pathLabel (path : List String) : String :=
  let p := ".".intercalate path
  if p = "" then "root" else p

/-- One iteration of the `for i, change := range changelog` loop of
`formatDiffOutput`: the writes it appends to `output`. -/
def writeChange (noColor : Bool) (fmtFloat : Float64 → String)
    (output : String) (i : Nat) (change : Change) : String :=
  let path := pathLabel change.Path
  let output := output ++ colorize noColor (toString (i + 1) ++ ". ") (Bold ++ White)
  if change.Typ = CREATE then
    let output := output ++ colorize noColor "+ CREATED: " (Bold ++ Green)
    let output := output ++ (colorize noColor path Green ++ "\n")
    let output := output ++ colorize noColor "  + Value: " Green
    output ++ (colorize noColor (formatValue fmtFloat change.To) (Bold ++ Green) ++ "\n")
  else if change.Typ = UPDATE then
    let output := output ++ colorize noColor "~ UPDATED: " (Bold ++ Yellow)
    let output := output ++ (colorize noColor path Yellow ++ "\n")
    let output := output ++ colorize noColor "  - Old: " Red
    let output := output ++ (colorize noColor (formatValue fmtFloat change.From) (Bold ++ Red) ++ "\n")
    let output := output ++ colorize noColor "  + New: " Green
    output ++ (colorize noColor (formatValue fmtFloat change.To) (Bold ++ Green) ++ "\n")
  else if change.Typ = DELETE then
    let output := output ++ colorize noColor "- DELETED: " (Bold ++ Red)
    let output := output ++ (colorize noColor path Red ++ "\n")
    let output := output ++ colorize noColor "  - Value: " Red
    output ++ (colorize noColor (formatValue fmtFloat change.From) (Bold ++ Red) ++ "\n")
  else output

/-- The `for i, change := range changelog` loop, started at index `i`. -/
def writeChanges (noColor : Bool) (fmtFloat : Float64 → String) :
    String → Nat → List Change → String
  | output, _, [] => output
  | output, i, change :: rest =>
    writeChanges noColor fmtFloat (writeChange noColor fmtFloat output i change) (i + 1) rest

/-- The function `formatDiffOutput`. -/
def formatDiffOutput (noColor : Bool) (fmtFloat : Float64 → String)
    (changelog : Changelog) : String :=
  if changelog.length = 0 then colorize noColor "No changes detected" Yellow ++ "\n"
  else
    let output := ""
    let separator := repeatEq 60
    let output := output ++ (colorize noColor separator Cyan ++ "\n")
    let output := output ++
      (colorize noColor ("Found " ++ toString changelog.length ++ " changes:") (Bold ++ White) ++ "\n")
    let output := output ++ (colorize noColor separator Cyan ++ "\n")
    let output := writeChanges noColor fmtFloat output 0 changelog
    output ++ ("\n" ++ colorize noColor (repeatEq 61) Cyan ++ "\n")

/-! ## The watch loop of `main`

The variables `preObj` and `obj` are declared once, before the loop, and are
Go maps: references to a table that `json.Unmarshal` updates in place.  The
embedding keeps the tables in a heap and the two variables as references
into it, so that sharing between the working value and the stored baseline
is expressible. -/

/-- The external collaborators of the loop: the stream decoder, the JSON
coder, the `kubectl-neat` normalization, the diff library, and the number
formatting of `fmt`. -/
structure Env where
  /-- The call `dec.Decode(&raw)` on the next item of the stream, `raw` being a
  fresh nil map: an error, or the decoded map (`none` for a nil map). -/
  decode : String → Except String (Option Obj)
  /-- The call `json.Marshal(raw)`. -/
  marshal : Option Obj → Except String String
  /-- The call `neat.NeatYAMLOrJSON(b)`. -/
  neat : String → Except String String
  /-- The JSON value that `json.Unmarshal` reads from `b`, or its syntax error. -/
  parse : String → Except String Value
  /-- The call `diff.Diff(preObj, obj)`, on the contents of the two maps. -/
  diff : Option Obj → Option Obj → Except String Changelog
  /-- The text `fmt.Sprintf("%v", x)` of a `float64`. -/
  fmtFloat : Float64 → String

/-- The assignment `m[k] = v` on a map. -/
def mapSet (m : Obj) (k : String) (v : Value) : Obj :=
  if m.any (fun kv => kv.1 = k) then m.map (fun kv => if kv.1 = k then (k, v) else kv)
  else m ++ [(k, v)]

/-- Storing the members of a JSON object into a map, one after the other. -/
def mapSetAll (m : Obj) (kvs : List (String × Value)) : Obj :=
  kvs.foldl (fun m kv => mapSet m kv.1 kv.2) m

/-- The content of the map a variable refers to (`none` for a nil map). -/
def deref (heap : List Obj) (r : Option Nat) : Option Obj :=
  match r with
  | none => none
  | some a => heap[a]?

/-- Storing a parsed JSON value through the pointer `&obj`, for `obj` of type
`map[string]interface{}`: JSON `null` sets `obj` to nil; a JSON object is
stored into the map `obj` refers to, a new map being allocated only if `obj`
is nil, and the entries the map already has are kept; any other JSON value is
a type error and leaves `obj` as it is. -/
def storeValue (heap : List Obj) (obj : Option Nat) :
    Value → Except String (List Obj × Option Nat)
  | .null => .ok (heap, none)
  | .obj kvs =>
    match obj with
    | none => .ok (heap ++ [mapSetAll [] kvs], some heap.length)
    | some a => .ok (heap.set a (mapSetAll (heap.getD a []) kvs), some a)
  | _ => .error "json: cannot unmarshal into Go value of type map[string]interface \x7b\x7d"

/-- The call `json.Unmarshal(b, &obj)`: a syntax error leaves `obj` as it is,
otherwise the value read from `b` is stored through `&obj`. -/
def jsonUnmarshal (env : Env) (heap : List Obj) (obj : Option Nat) (b : String) :
    Except String (List Obj × Option Nat) :=
  match env.parse b with
  | .error err => .error err
  | .ok v => storeValue heap obj v

/-- The expression `deepcopy.Copy(obj).(map[string]interface{})`: a nil map is
copied to a nil map, any other map to a newly allocated map with the same
content. -/
def deepcopy (heap : List Obj) (obj : Option Nat) : List Obj × Option Nat :=
  match obj with
  | none => (heap, none)
  | some a => (heap ++ [heap.getD a []], some heap.length)

/-- The state of the loop: the heap of maps, the variables `preObj` and `obj`,
the lines written by `log.Println`, the texts written by `fmt.Print`, and the
record of the operands of each call of `diff.Diff`. -/
structure State where
  heap : List Obj
  preObj : Option Nat
  obj : Option Nat
  logs : List String
  stdout : List String
  diffCalls : List (Option Obj × Option Obj)

/-- The call `log.Println(msg)`. -/
def State.println (st : State) (msg : String) : State :=
  { st with logs := st.logs ++ [msg] }

/-- The call `fmt.Print(text)`. -/
def State.print (st : State) (text : String) : State :=
  { st with stdout := st.stdout ++ [text] }

/-- The state in which `main` enters the loop. -/
def State.init : State :=
  { heap := [], preObj := none, obj := none,
    logs := ["Starting kube-watch-neat-diff"], stdout := [], diffCalls := [] }

/-- The content of the baseline `preObj`. -/
def State.baseline (st : State) : Option Obj := deref st.heap st.preObj

/-- The content of the working value `obj`. -/
def State.working (st : State) : Option Obj := deref st.heap st.obj

/-- The statement `if preObj == nil { ... } else { ... }` that ends the body of
the loop: the first value seeds the baseline, any later value is compared
with it; `diffWithFirst` is the flag `*diffWithFirst` and `noColor` the flag
`*noColor`. -/
def seedOrDiff (env : Env) (diffWithFirst noColor : Bool) (st : State) : State :=
  match st.preObj with
  | none =>
    let (heap, copy) := deepcopy st.heap st.obj
    let st := { st with heap := heap, preObj := copy }
    st.println "Watching resource, waiting for changes..."
  | some _ =>
    let st := { st with diffCalls := st.diffCalls ++ [(st.baseline, st.working)] }
    let st :=
      match env.diff st.baseline st.working with
      | .error err => st.println ("Error computing diff: " ++ err)
      | .ok changelog => st.print (formatDiffOutput noColor env.fmtFloat changelog)
    if !diffWithFirst then
      let (heap, copy) := deepcopy st.heap st.obj
      { st with heap := heap, preObj := copy }
    else st

/-- One iteration of the `for dec.More()` loop of `main`, on the next item of
the stream. -/
def step (env : Env) (diffWithFirst noColor : Bool) (st : State) (item : String) : State :=
  match env.decode item with
  | .error err => st.println ("Error decoding JSON: " ++ err)
  | .ok raw =>
    match env.marshal raw with
    | .error err => st.println ("Error marshaling object to JSON: " ++ err)
    | .ok b =>
      match env.neat b with
      | .error err => st.println ("Error processing object: " ++ err)
      | .ok b =>
        match jsonUnmarshal env st.heap st.obj b with
        | .error err => st.println ("Error parsing previous object: " ++ err)
        | .ok (heap, obj) =>
          seedOrDiff env diffWithFirst noColor { st with heap := heap, obj := obj }

/-- The loop of `main` over the items the decoder delivers. -/
def mainLoop (env : Env) (diffWithFirst noColor : Bool) (st : State) (items : List String) :
    State :=
  items.foldl (step env diffWithFirst noColor) st

/-! ## The stream decoder

The loop reads its items through a `json.Decoder`.  The decoder keeps the
first syntax error it meets in its field `err` and returns it from every later
call of `Decode`, without consuming input, while `More` only looks at the
unread input. -/

/-- The state of the `json.Decoder`: the items of the stream that are not yet
consumed (each the text of one value, without surrounding white space), and
the field `dec.err`. -/
structure Decoder where
  input : List String
  err : Option String

/-- The call `dec.More()`: there is unread input and it does not start with a
closing bracket; the field `dec.err` is not looked at. -/
def Decoder.More (dec : Decoder) : Bool :=
  match dec.input with
  | [] => false
  | item :: _ => !(item.data.head? == some ']' || item.data.head? == some '}')

/-- The call `dec.Decode(&raw)` for a fresh nil map `raw`; `scanError item` is
the syntax error the scanner of the decoder finds in the item, if it finds
one.  A stored error is returned again; a syntax error is stored and the item
is not consumed; otherwise the item is consumed and stored into `raw`, and a
type error of that is not stored. -/
def Decoder.Decode (env : Env) (scanError : String → Option String) (dec : Decoder) :
    Except String (Option Obj) × Decoder :=
  match dec.err with
  | some err => (.error err, dec)
  | none =>
    match dec.input with
    | [] => (.error "EOF", { dec with err := some "EOF" })
    | item :: rest =>
      match scanError item with
      | some err => (.error err, { dec with err := some err })
      | none => (env.decode item, { dec with input := rest })

/-- The body of the `for dec.More()` loop of `main`, given the result of its
call `dec.Decode(&raw)`. -/
def loopBody (env : Env) (diffWithFirst noColor : Bool) (st : State)
    (decoded : Except String (Option Obj)) : State :=
  match decoded with
  | .error err => st.println ("Error decoding JSON: " ++ err)
  | .ok raw =>
    match env.marshal raw with
    | .error err => st.println ("Error marshaling object to JSON: " ++ err)
    | .ok b =>
      match env.neat b with
      | .error err => st.println ("Error processing object: " ++ err)
      | .ok b =>
        match jsonUnmarshal env st.heap st.obj b with
        | .error err => st.println ("Error parsing previous object: " ++ err)
        | .ok (heap, obj) =>
          seedOrDiff env diffWithFirst noColor { st with heap := heap, obj := obj }

/-- The loop `for dec.More() { ... }` of `main`, run for at most `fuel`
iterations. -/
def mainFor (env : Env) (scanError : String → Option String) (diffWithFirst noColor : Bool) :
    Nat → Decoder → State → State
  | 0, _, st => st
  | fuel + 1, dec, st =>
    if dec.More then
      mainFor env scanError diffWithFirst noColor fuel (dec.Decode env scanError).2
        (loopBody env diffWithFirst noColor st (dec.Decode env scanError).1)
    else st

/-! ## Reading a run of the loop -/

/-- The stages of the processing of one item. -/
inductive Stage where
  | decoding | marshaling | normalization | reparsing | diffing
  deriving DecidableEq, Repr

/-- The stage at which the processing of `item` fails in the state `st`, if
one does. -/
def failedStage (env : Env) (st : State) (item : String) : Option Stage :=
  match env.decode item with
  | .error _ => some .decoding
  | .ok raw =>
    match env.marshal raw with
    | .error _ => some .marshaling
    | .ok b =>
      match env.neat b with
      | .error _ => some .normalization
      | .ok b =>
        match jsonUnmarshal env st.heap st.obj b with
        | .error _ => some .reparsing
        | .ok (heap, obj) =>
          match st.preObj with
          | none => none
          | some p =>
            match env.diff (deref heap (some p)) (deref heap obj) with
            | .error _ => some .diffing
            | .ok _ => none

/-- The JSON value an item is decoded and normalized to: the outcome of
decoding, marshaling, normalizing and parsing it. -/
def normalize (env : Env) (item : String) : Except String Value :=
  match env.decode item with
  | .error err => .error err
  | .ok raw =>
    match env.marshal raw with
    | .error err => .error err
    | .ok b =>
      match env.neat b with
      | .error err => .error err
      | .ok b => env.parse b

/-- A normalized value as a map of its own: a nil map for `null`, the members
of an object stored in a new map; no map for any other value. -/
def asMap : Value → Option (Option Obj)
  | .null => some none
  | .obj kvs => some (some (mapSetAll [] kvs))
  | _ => none

/-- The references of a state are sound: `preObj` and `obj` refer to maps of
the heap, and not to the same map. -/
def State.Sound (st : State) : Prop :=
  (∀ p, st.preObj = some p → p < st.heap.length) ∧
  (∀ o, st.obj = some o → o < st.heap.length) ∧
  (∀ p o, st.preObj = some p → st.obj = some o → p ≠ o)

/-- The item is decoded and normalized successfully: the four stages before
the comparison succeed. -/
def succeeds (env : Env) (item : String) : Bool :=
  match normalize env item with
  | .ok v => (asMap v).isSome
  | .error _ => false

/-- The bookkeeping of a run over `k` items that were decoded and normalized
successfully: at most `k - 1` reports, a seeded baseline only after one such
item, and no call of the diff without a baseline. -/
def Counted (st : State) (k : Nat) : Prop :=
  st.stdout.length ≤ k - 1 ∧ (st.preObj ≠ none → 1 ≤ k) ∧
  st.stdout.length ≤ st.diffCalls.length ∧ (∀ c ∈ st.diffCalls, c.1 ≠ none)

/-! ## Environment of the examples -/

/-- The doubles 1, 2 and 3. -/
def f64One : Float64 := ⟨0x3FF0000000000000⟩
def f64Two : Float64 := ⟨0x4000000000000000⟩
def f64Three : Float64 := ⟨0x4008000000000000⟩

/-- The text of `%v` on the doubles used in the examples. -/
def demoFmtFloat (x : Float64) : String :=
  if x = f64One then "1" else if x = f64Two then "2" else if x = f64Three then "3" else "0"


/-! ## Reading the report -/

/-- What a report says about one change after the number of its block: the
kind marker and the path label on one line, then the old and the new value
summaries that the kind has, one per line. -/
def changeBody (noColor : Bool) (fmtFloat : Float64 → String) (change : Change) : String :=
  if change.Typ = CREATE then
    colorize noColor "+ CREATED: " (Bold ++ Green)
      ++ colorize noColor (pathLabel change.Path) Green ++ "\n"
      ++ colorize noColor "  + Value: " Green
      ++ colorize noColor (formatValue fmtFloat change.To) (Bold ++ Green) ++ "\n"
  else if change.Typ = UPDATE then
    colorize noColor "~ UPDATED: " (Bold ++ Yellow)
      ++ colorize noColor (pathLabel change.Path) Yellow ++ "\n"
      ++ colorize noColor "  - Old: " Red
      ++ colorize noColor (formatValue fmtFloat change.From) (Bold ++ Red) ++ "\n"
      ++ colorize noColor "  + New: " Green
      ++ colorize noColor (formatValue fmtFloat change.To) (Bold ++ Green) ++ "\n"
  else if change.Typ = DELETE then
    colorize noColor "- DELETED: " (Bold ++ Red)
      ++ colorize noColor (pathLabel change.Path) Red ++ "\n"
      ++ colorize noColor "  - Value: " Red
      ++ colorize noColor (formatValue fmtFloat change.From) (Bold ++ Red) ++ "\n"
  else ""

/-- The block of the report for the change at index `i` (counted from 0): its
number `i + 1`, then the description of the change. -/
def changeBlock (noColor : Bool) (fmtFloat : Float64 → String) (i : Nat) (change : Change) :
    String :=
  colorize noColor (toString (i + 1) ++ ". ") (Bold ++ White) ++ changeBody noColor fmtFloat change

/-- What the report shows of a change: its kind, the label of its path, and
the summaries of its old and new values. -/
def shownOf (fmtFloat : Float64 → String) (change : Change) :
    String × String × String × String :=
  (change.Typ, pathLabel change.Path, formatValue fmtFloat change.From,
    formatValue fmtFloat change.To)

/-- The changelog of the end-to-end example: an update of `a` from 1 to 2 and
the creation of `b` with the value 3. -/
def exampleChangelog : Changelog :=
  [⟨UPDATE, ["a"], .num f64One, .num f64Two⟩, ⟨CREATE, ["b"], .null, .num f64Three⟩]

/-! ## Erasing the styles of a colorized report -/

/-- The escape character that starts every style sequence. -/
def escChar : Char := '\x1b'

/-- The style sequences the formatter inserts: `Reset`, `Bold`, `Red`,
`Green`, `Yellow`, `Cyan`, `White`. -/
def styleCodes : List (List Char) :=
  [Reset.data, Bold.data, Red.data, Green.data, Yellow.data, Cyan.data, White.data]

/-- The length of the style sequence the text starts with, if it starts with one. -/
def styleAt (cs : List Char) : Option Nat :=
  (styleCodes.find? (fun code => code.isPrefixOf cs)).map List.length

/-- Erasing the style sequences from a text, reading from the left; the first
argument counts the characters of a sequence that remain to be dropped. -/
def eraseStylesAux : Nat → List Char → List Char
  | _, [] => []
  | skip + 1, _ :: cs => eraseStylesAux skip cs
  | 0, c :: cs =>
    match styleAt (c :: cs) with
    | some n => eraseStylesAux (n - 1) cs
    | none => c :: eraseStylesAux 0 cs

/-- The text without its style sequences. -/
def eraseStyles (s : String) : String := String.mk (eraseStylesAux 0 s.data)

/-- The text contains none of the style sequences. -/
def NoStyle (s : String) : Prop := ∀ code ∈ styleCodes, ¬ code <:+: s.data

instance (s : String) : Decidable (NoStyle s) := by
  unfold NoStyle
  infer_instance

/-- The strings of a value that its summary is drawn from: the string itself,
or the keys of the object. -/
def shownTexts : Value → List String
  | .str s => [s]
  | .obj kvs => kvs.map Prod.fst
  | _ => []

/-- A changelog with a string update, the creation of an object and the
deletion of a number. -/
def styledChangelog : Changelog :=
  [⟨UPDATE, ["metadata", "labels", "app"], .str "web", .str "api"⟩,
   ⟨CREATE, ["data"], .null, .obj [("k", .str "v")]⟩,
   ⟨DELETE, ["spec", "replicas"], .num f64Three, .null⟩]

/-- The items of the example runs: the JSON texts `{"a":1,"b":2}`, `{"a":1}`,
`{"a":2}`, `{"a":"x"}`, and the malformed text of one opening brace. -/
def itemAB : String := "\x7b\"a\":1,\"b\":2\x7d"
def itemA1 : String := "\x7b\"a\":1\x7d"
def itemA2 : String := "\x7b\"a\":2\x7d"
def itemAx : String := "\x7b\"a\":\"x\"\x7d"
def itemBad : String := "\x7b"

/-- An item that is well-formed JSON but not an object: the text `[1]`. -/
def itemArr : String := "[1]"

/-- The item that is the JSON text `null`. -/
def itemNull : String := "null"

/-- The JSON texts of the example runs and the values they denote. -/
def demoParse (s : String) : Except String Value :=
  if s = itemAB then .ok (.obj [("a", .num f64One), ("b", .num f64Two)])
  else if s = itemA1 then .ok (.obj [("a", .num f64One)])
  else if s = itemA2 then .ok (.obj [("a", .num f64Two)])
  else if s = itemAx then .ok (.obj [("a", .str "x")])
  else if s = itemArr then .ok (.arr [.num f64One])
  else if s = itemNull then .ok .null
  else .error "invalid character"

/-- Decoding an item of the example runs into a map. -/
def demoDecode (s : String) : Except String (Option Obj) :=
  match demoParse s with
  | .error err => .error err
  | .ok .null => .ok none
  | .ok (.obj kvs) => .ok (some kvs)
  | .ok _ => .error "json: cannot unmarshal into Go value of type map[string]interface \x7b\x7d"

/-- The JSON text of a field of the example runs, which is a scalar. -/
def demoEncodeScalar : Value → String
  | .null => "null"
  | .bool b => if b then "true" else "false"
  | .num x => demoFmtFloat x
  | .str s => "\"" ++ s ++ "\""
  | _ => "null"

/-- The JSON text of a map of the example runs. -/
def demoMarshal (raw : Option Obj) : Except String String :=
  match raw with
  | none => .ok "null"
  | some kvs =>
    .ok ("\x7b" ++ ",".intercalate (kvs.map (fun kv => "\"" ++ kv.1 ++ "\":" ++ demoEncodeScalar kv.2))
      ++ "\x7d")

/-- The kind of a value. -/
def Value.kind : Value → Nat
  | .null => 0
  | .bool _ => 1
  | .num _ => 2
  | .str _ => 3
  | .arr _ => 4
  | .obj _ => 5

/-- Equality of two scalars. -/
def scalarEqb : Value → Value → Bool
  | .null, .null => true
  | .bool a, .bool b => a == b
  | .num a, .num b => a == b
  | .str a, .str b => a == b
  | _, _ => false

/-- The changes of the fields of `a` against the map `b`, for maps with scalar
fields: a field missing in `b` is deleted, a field with another scalar of the
same kind is updated, and a field that changes its kind is a type mismatch. -/
def demoDiffOld (b : Obj) : Obj → Except String Changelog
  | [] => .ok []
  | (k, v) :: rest =>
    match b.lookup k with
    | none =>
      match demoDiffOld b rest with
      | .error err => .error err
      | .ok cl => .ok (⟨DELETE, [k], v, .null⟩ :: cl)
    | some w =>
      if scalarEqb v w then demoDiffOld b rest
      else if v.kind = w.kind ∨ v.kind = 0 ∨ w.kind = 0 then
        match demoDiffOld b rest with
        | .error err => .error err
        | .ok cl => .ok (⟨UPDATE, [k], v, w⟩ :: cl)
      else .error "types do not match"

/-- The fields of `b` that the map `a` lacks are created. -/
def demoDiffNew (a : Obj) (b : Obj) : Changelog :=
  (b.filter (fun kv => (a.lookup kv.1).isNone)).map (fun kv => ⟨CREATE, [kv.1], .null, kv.2⟩)

/-- The diff of the example runs, on maps with scalar fields. -/
def demoDiff (a b : Option Obj) : Except String Changelog :=
  match demoDiffOld (b.getD []) (a.getD []) with
  | .error err => .error err
  | .ok cl => .ok (cl ++ demoDiffNew (a.getD []) (b.getD []))

/-- The environment of the example runs: the items are JSON objects with
scalar fields, the normalization leaves them as they are, and the diff
compares their fields. -/
def demoEnv : Env :=
  { decode := demoDecode, marshal := demoMarshal, neat := fun b => .ok b, parse := demoParse,
    diff := demoDiff, fmtFloat := demoFmtFloat }

/-- The scanner of the example runs: the malformed item is a syntax error. -/
def demoScanError (s : String) : Option String :=
  if s = itemBad then some "invalid character" else none

/-! ## The diff engine of the specification -/

/-- Modelled from the spec: the changes for the keys that only the new object
has (the library r3labs/diff, which computes the changelog, is not part of the
sources): a key only in `new` yields a Create at that path. -/
def specCreates (path : List String) (old new : Obj) : Changelog :=
  (new.filter (fun kv => (old.lookup kv.1).isNone)).map
    (fun kv => ⟨CREATE, path ++ [kv.1], .null, kv.2⟩)

mutual
/-- Modelled from the spec: the Diff Engine `diff(old, new)` at a path (the
library r3labs/diff, which computes the changelog, is not part of the
sources).  Two objects are compared key by key, two arrays position by
position, and any other two values yield a single Update when they are not
equal, values of different kinds never being equal. -/
def specDiffAt (path : List String) : Value → Value → Changelog
  | .obj old, .obj new => specDiffFields path new old ++ specCreates path old new
  | .arr old, .arr new => specDiffItems path 0 old new
  | old, new => if scalarEqb old new then [] else [⟨UPDATE, path, old, new⟩]
/-- Modelled from the spec: the changes for the keys of the old object: a key
only in `old` yields a Delete, a key in both is compared recursively. -/
def specDiffFields (path : List String) (new : Obj) : List (String × Value) → Changelog
  | [] => []
  | (k, v) :: rest =>
    (match new.lookup k with
      | none => [⟨DELETE, path ++ [k], v, .null⟩]
      | some w => specDiffAt (path ++ [k]) v w)
    ++ specDiffFields path new rest
/-- Modelled from the spec: the changes of two arrays from position `i` on:
corresponding positions are compared recursively, with the index as path
segment, and the extra positions of one side yield Deletes or Creates. -/
def specDiffItems (path : List String) (i : Nat) : List Value → List Value → Changelog
  | [], new => (new.enumFrom i).map (fun jy => ⟨CREATE, path ++ [toString jy.1], .null, jy.2⟩)
  | x :: old, [] => ⟨DELETE, path ++ [toString i], x, .null⟩ :: specDiffItems path (i + 1) old []
  | x :: old, y :: new =>
    specDiffAt (path ++ [toString i]) x y ++ specDiffItems path (i + 1) old new
end

mutual
/-- A well-formed value: the keys of every object in it are distinct. -/
def Value.wellFormed : Value → Bool
  | .obj kvs => decide (kvs.map Prod.fst).Nodup && Value.wellFormedFields kvs
  | .arr xs => Value.wellFormedItems xs
  | _ => true
/-- The values of the fields are well-formed. -/
def Value.wellFormedFields : List (String × Value) → Bool
  | [] => true
  | (_, v) :: rest => Value.wellFormed v && Value.wellFormedFields rest
/-- The elements are well-formed. -/
def Value.wellFormedItems : List Value → Bool
  | [] => true
  | x :: rest => Value.wellFormed x && Value.wellFormedItems rest
end

/-- A map as a value; a nil map has no keys. -/
def mapValue (m : Option Obj) : Value := .obj (m.getD [])

/-- Modelled from the spec: the call `diff.Diff(preObj, obj)` answered by the
Diff Engine of the specification (the library r3labs/diff is not part of the
sources). -/
def specDiff (a b : Option Obj) : Except String Changelog :=
  .ok (specDiffAt [] (mapValue a) (mapValue b))

/-- The environment of the example runs with the Diff Engine of the
specification. -/
def specEnv : Env := { demoEnv with diff := specDiff }
/-! # Properties -/

/-! ## Strings -/

theorem utf8ByteSize_go_ge (cs : List Char) : cs.length ≤ String.utf8ByteSize.go cs := by
  induction cs with
  | nil => simp [String.utf8ByteSize.go]
  | cons c cs ih =>
    have hc := Char.utf8Size_pos c
    simp only [String.utf8ByteSize.go, List.length_cons]
    omega

theorem length_le_utf8ByteSize (s : String) : s.length ≤ s.utf8ByteSize := by
  cases s with
  | mk cs => exact utf8ByteSize_go_ge cs

/-! ## Value summaries -/

/-- C5: a string of more than 100 code points is summarized as its first 97
code points followed by the marker "...". -/
theorem formatValue_long_string (fmtFloat : Float64 → String) (s : String)
    (h : 100 < s.length) :
    formatValue fmtFloat (.str s) = String.mk (s.data.take 97) ++ "..." ∧
      (s.data.take 97).length = 97 := by
  have hb : 100 < s.utf8ByteSize := lt_of_lt_of_le h (length_le_utf8ByteSize s)
  refine ⟨?_, ?_⟩
  · simp [formatValue, sprintPrec97, hb]
  · have : 100 < s.data.length := h
    simp only [List.length_take]
    omega

set_option maxRecDepth 100000 in
/-- C5, the example of the specification: 150 times the letter x is shown as
97 times the letter x followed by "...". -/
theorem formatValue_long_string_witness :
    100 < (String.mk (List.replicate 150 'x')).length ∧
      formatValue demoFmtFloat (.str (String.mk (List.replicate 150 'x')))
        = String.mk (List.replicate 97 'x') ++ "..." :=
  ⟨by decide, (formatValue_long_string demoFmtFloat _ (by decide)).1⟩

/-- C6: an object with at most 3 keys lists all its keys; an object with more
keys lists the first 3 keys visited, which are 3 distinct keys of the object,
followed by the total number of keys. -/
theorem formatValue_object (fmtFloat : Float64 → String) (v : Obj)
    (hkeys : (v.map Prod.fst).Nodup) :
    (v.length ≤ 3 →
      formatValue fmtFloat (.obj v) = "map[" ++ ", ".intercalate (v.map Prod.fst) ++ "]") ∧
    (3 < v.length →
      formatValue fmtFloat (.obj v)
        = "map[" ++ ", ".intercalate ((v.map Prod.fst).take 3)
            ++ "... (" ++ toString v.length ++ " keys)]" ∧
      ((v.map Prod.fst).take 3).length = 3 ∧
      ((v.map Prod.fst).take 3).Nodup ∧
      ∀ k ∈ (v.map Prod.fst).take 3, ∃ x, (k, x) ∈ v) := by
  refine ⟨?_, ?_⟩
  · intro h
    have : ¬ 3 < v.length := by omega
    simp [formatValue, this]
  · intro h
    refine ⟨by simp [formatValue, h], ?_, ?_, ?_⟩
    · simp only [List.length_take, List.length_map]
      omega
    · exact hkeys.sublist (List.take_sublist 3 _)
    · intro k hk
      have hk2 : k ∈ v.map Prod.fst := List.mem_of_mem_take hk
      obtain ⟨⟨k2, x⟩, hmem, rfl⟩ := List.mem_map.mp hk2
      exact ⟨x, hmem⟩

/-- C6, the example of the specification: the object with the keys a, b, c,
d, e is shown with 3 of its keys and "(5 keys)". -/
theorem formatValue_object_witness :
    formatValue demoFmtFloat (.obj [("a", .null), ("b", .null), ("c", .null),
        ("d", .null), ("e", .null)])
      = "map[" ++ ", ".intercalate ["a", "b", "c"] ++ "... (" ++ toString 5 ++ " keys)]" ∧
    "map[" ++ ", ".intercalate ["a", "b", "c"] ++ "... (" ++ toString 5 ++ " keys)]"
      = "map[a, b, c... (5 keys)]" :=
  ⟨((formatValue_object demoFmtFloat [("a", .null), ("b", .null), ("c", .null),
      ("d", .null), ("e", .null)] (by decide)).2 (by decide)).1, by decide⟩

/-- C7, as stated, fails: two objects that are equal as mappings and whose
keys are visited in different orders get different summaries. -/
theorem formatValue_mapping_counterexample :
    List.Perm [("a", Value.num f64One), ("b", Value.num f64Two)]
        [("b", Value.num f64Two), ("a", Value.num f64One)] ∧
      formatValue demoFmtFloat (.obj [("a", .num f64One), ("b", .num f64Two)]) = "map[a, b]" ∧
      formatValue demoFmtFloat (.obj [("b", .num f64Two), ("a", .num f64One)]) = "map[b, a]" ∧
      formatValue demoFmtFloat (.obj [("a", .num f64One), ("b", .num f64Two)])
        ≠ formatValue demoFmtFloat (.obj [("b", .num f64Two), ("a", .num f64One)]) :=
  ⟨List.Perm.swap _ _ _, by decide, by decide, by decide⟩

/-! ## The report -/

theorem intercalate_go_data (sep : String) (l : List String) (acc : String) :
    (String.intercalate.go acc sep l).data
      = acc.data ++ (l.map (fun b => sep.data ++ b.data)).flatten := by
  induction l generalizing acc with
  | nil => simp [String.intercalate.go]
  | cons b l ih => simp [String.intercalate.go, ih, List.append_assoc]

theorem intercalate_cons_data (sep a : String) (l : List String) :
    (sep.intercalate (a :: l)).data
      = a.data ++ (l.map (fun b => sep.data ++ b.data)).flatten := by
  simp [String.intercalate, intercalate_go_data]

theorem intercalate_dot_eq_empty (path : List String) :
    ".".intercalate path = "" ↔ path = [] ∨ path = [""] := by
  constructor
  · intro h
    match path with
    | [] => exact Or.inl rfl
    | [a] =>
      right
      have : a = "" := by simpa [String.intercalate, String.intercalate.go] using h
      rw [this]
    | a :: b :: l =>
      exfalso
      have hd := congrArg String.data h
      rw [intercalate_cons_data] at hd
      simp at hd
  · rintro (h | h) <;> subst h <;> rfl

theorem join_cons (a : String) (l : List String) : String.join (a :: l) = a ++ String.join l := by
  apply String.ext
  simp [String.data_join]

theorem writeChange_eq (noColor : Bool) (fmtFloat : Float64 → String) (output : String)
    (i : Nat) (change : Change) :
    writeChange noColor fmtFloat output i change
      = output ++ changeBlock noColor fmtFloat i change := by
  have huc : UPDATE ≠ CREATE := by decide
  have hdc : DELETE ≠ CREATE := by decide
  have hdu : DELETE ≠ UPDATE := by decide
  unfold writeChange changeBlock changeBody
  by_cases h1 : change.Typ = CREATE
  · simp [h1, String.append_assoc]
  · by_cases h2 : change.Typ = UPDATE
    · simp [h2, huc, String.append_assoc]
    · by_cases h3 : change.Typ = DELETE
      · simp [h3, hdc, hdu, String.append_assoc]
      · simp [h1, h2, h3, String.append_assoc]

theorem writeChanges_eq (noColor : Bool) (fmtFloat : Float64 → String) (changelog : List Change) :
    ∀ (output : String) (i : Nat),
      writeChanges noColor fmtFloat output i changelog
        = output ++ String.join
            ((changelog.enumFrom i).map (fun ic => changeBlock noColor fmtFloat ic.1 ic.2)) := by
  induction changelog with
  | nil =>
    intro output i
    simp [writeChanges, String.join]
  | cons change rest ih =>
    intro output i
    simp [writeChanges, ih, writeChange_eq, join_cons, String.append_assoc]

/-- C9: the report of a non-empty changelog of n changes is the header with
the count n between two separator lines, then one block per change, in the
order of the changelog, the block of the i-th change (counted from 1)
starting with the number i, then the closing line. -/
theorem formatDiffOutput_nonempty (noColor : Bool) (fmtFloat : Float64 → String)
    (changelog : Changelog) (h : changelog ≠ []) :
    formatDiffOutput noColor fmtFloat changelog
      = colorize noColor (repeatEq 60) Cyan ++ "\n"
        ++ colorize noColor ("Found " ++ toString changelog.length ++ " changes:") (Bold ++ White)
        ++ "\n"
        ++ colorize noColor (repeatEq 60) Cyan ++ "\n"
        ++ String.join ((changelog.enumFrom 0).map (fun ic =>
            colorize noColor (toString (ic.1 + 1) ++ ". ") (Bold ++ White)
              ++ changeBody noColor fmtFloat ic.2))
        ++ "\n" ++ colorize noColor (repeatEq 61) Cyan ++ "\n" ∧
    ((changelog.enumFrom 0).map (fun ic =>
        colorize noColor (toString (ic.1 + 1) ++ ". ") (Bold ++ White)
          ++ changeBody noColor fmtFloat ic.2)).length = changelog.length := by
  have hlen : changelog.length ≠ 0 := by
    intro h0
    exact h (List.length_eq_zero.mp h0)
  refine ⟨?_, by simp⟩
  unfold formatDiffOutput
  simp only [hlen, if_false, writeChanges_eq, changeBlock]
  simp [String.append_assoc]

set_option maxRecDepth 100000 in
/-- C9, the example of the specification: the report of the update of a from
1 to 2 followed by the creation of b with 3 shows "Found 2 changes:" and the
blocks 1 and 2. -/
theorem formatDiffOutput_nonempty_witness :
    exampleChangelog ≠ [] ∧
    formatDiffOutput true demoFmtFloat exampleChangelog
      = colorize true (repeatEq 60) Cyan ++ "\n"
        ++ colorize true ("Found " ++ toString exampleChangelog.length ++ " changes:")
            (Bold ++ White)
        ++ "\n"
        ++ colorize true (repeatEq 60) Cyan ++ "\n"
        ++ String.join ((exampleChangelog.enumFrom 0).map (fun ic =>
            colorize true (toString (ic.1 + 1) ++ ". ") (Bold ++ White)
              ++ changeBody true demoFmtFloat ic.2))
        ++ "\n" ++ colorize true (repeatEq 61) Cyan ++ "\n" ∧
    formatDiffOutput true demoFmtFloat exampleChangelog
      = repeatEq 60 ++ "\nFound 2 changes:\n" ++ repeatEq 60
        ++ "\n1. ~ UPDATED: a\n  - Old: 1\n  + New: 2\n2. + CREATED: b\n  + Value: 3\n\n"
        ++ repeatEq 61 ++ "\n" :=
  ⟨by simp [exampleChangelog],
    (formatDiffOutput_nonempty true demoFmtFloat exampleChangelog
      (by simp [exampleChangelog])).1,
    by decide⟩

/-- C10, as stated, fails: a path that is not empty but consists of one empty
segment (the key "" of an object) is labelled "root", not with its segments
joined by ".". -/
theorem pathLabel_empty_segment_counterexample :
    ([""] : List String) ≠ [] ∧ ".".intercalate [""] = "" ∧ pathLabel [""] = "root" ∧
      writeChange true demoFmtFloat "" 0 ⟨UPDATE, [""], .num f64One, .num f64Two⟩
        = "1. ~ UPDATED: root\n  - Old: 1\n  + New: 2\n" :=
  ⟨by decide, by decide, by decide, by decide⟩

/-- C10, amended: the block of a change shows the label of its path, which is
"root" when the path is empty or is the single empty segment and the segments
joined by "." otherwise, and then, by kind: for a Create the summary of `To`
only; for an Update the summary of `From` and then the summary of `To`; for a
Delete the summary of `From` only. -/
theorem writeChange_by_kind (noColor : Bool) (fmtFloat : Float64 → String) (output : String)
    (i : Nat) (path : List String) (old new : Value) :
    pathLabel path = (if path = [] ∨ path = [""] then "root" else ".".intercalate path) ∧
    writeChange noColor fmtFloat output i ⟨CREATE, path, old, new⟩
      = output ++ colorize noColor (toString (i + 1) ++ ". ") (Bold ++ White)
        ++ colorize noColor "+ CREATED: " (Bold ++ Green)
        ++ colorize noColor (pathLabel path) Green ++ "\n"
        ++ colorize noColor "  + Value: " Green
        ++ colorize noColor (formatValue fmtFloat new) (Bold ++ Green) ++ "\n" ∧
    writeChange noColor fmtFloat output i ⟨UPDATE, path, old, new⟩
      = output ++ colorize noColor (toString (i + 1) ++ ". ") (Bold ++ White)
        ++ colorize noColor "~ UPDATED: " (Bold ++ Yellow)
        ++ colorize noColor (pathLabel path) Yellow ++ "\n"
        ++ colorize noColor "  - Old: " Red
        ++ colorize noColor (formatValue fmtFloat old) (Bold ++ Red) ++ "\n"
        ++ colorize noColor "  + New: " Green
        ++ colorize noColor (formatValue fmtFloat new) (Bold ++ Green) ++ "\n" ∧
    writeChange noColor fmtFloat output i ⟨DELETE, path, old, new⟩
      = output ++ colorize noColor (toString (i + 1) ++ ". ") (Bold ++ White)
        ++ colorize noColor "- DELETED: " (Bold ++ Red)
        ++ colorize noColor (pathLabel path) Red ++ "\n"
        ++ colorize noColor "  - Value: " Red
        ++ colorize noColor (formatValue fmtFloat old) (Bold ++ Red) ++ "\n" := by
  have huc : UPDATE ≠ CREATE := by decide
  have hdc : DELETE ≠ CREATE := by decide
  have hdu : DELETE ≠ UPDATE := by decide
  refine ⟨?_, ?_, ?_, ?_⟩
  · unfold pathLabel
    simp only [intercalate_dot_eq_empty]
  · simp [writeChange, String.append_assoc]
  · simp [writeChange, huc, String.append_assoc]
  · simp [writeChange, hdc, hdu, String.append_assoc]

/-! ## Colorization -/

theorem styleCodes_eq :
    styleCodes = [['\x1b', '[', '0', 'm'], ['\x1b', '[', '1', 'm'], ['\x1b', '[', '3', '1', 'm'],
      ['\x1b', '[', '3', '2', 'm'], ['\x1b', '[', '3', '3', 'm'], ['\x1b', '[', '3', '6', 'm'],
      ['\x1b', '[', '3', '7', 'm']] := rfl

theorem styleCodes_shape (code : List Char) (h : code ∈ styleCodes) :
    ∃ tail, code = escChar :: tail ∧ escChar ∉ tail := by
  rw [styleCodes_eq] at h
  simp only [List.mem_cons, List.mem_singleton, List.not_mem_nil, or_false] at h
  rcases h with h | h | h | h | h | h | h <;> subst h <;> exact ⟨_, rfl, by decide⟩

theorem styleAt_of_ne_esc (c : Char) (cs : List Char) (h : c ≠ escChar) :
    styleAt (c :: cs) = none := by
  have h2 : ('\x1b' == c) = false := by
    simp only [beq_eq_false_iff_ne, ne_eq]
    exact fun e => h e.symm
  simp [styleAt, styleCodes_eq, List.find?, List.isPrefixOf, h2]

theorem styleAt_eq_none_iff (cs : List Char) :
    styleAt cs = none ↔ ∀ code ∈ styleCodes, ¬ code <+: cs := by
  unfold styleAt
  simp [List.find?_eq_none]

theorem styleAt_code (code : List Char) (h : code ∈ styleCodes) (rest : List Char) :
    styleAt (code ++ rest) = some code.length := by
  rw [styleCodes_eq] at h
  simp only [List.mem_cons, List.mem_singleton, List.not_mem_nil, or_false] at h
  rcases h with h | h | h | h | h | h | h <;> subst h <;>
    simp [styleAt, styleCodes_eq, List.find?, List.isPrefixOf] <;> rfl

theorem eraseStylesAux_skip (l rest : List Char) :
    eraseStylesAux l.length (l ++ rest) = eraseStylesAux 0 rest := by
  induction l with
  | nil => rfl
  | cons c l ih => simpa [eraseStylesAux] using ih

theorem eraseStylesAux_code (code : List Char) (h : code ∈ styleCodes) (rest : List Char) :
    eraseStylesAux 0 (code ++ rest) = eraseStylesAux 0 rest := by
  obtain ⟨tail, rfl, -⟩ := styleCodes_shape code h
  have hs := styleAt_code _ h rest
  simp only [List.cons_append] at hs ⊢
  simp only [eraseStylesAux, hs, List.length_cons, Nat.add_sub_cancel]
  exact eraseStylesAux_skip tail rest


theorem eraseStylesAux_cons_none (c : Char) (cs : List Char) (h : styleAt (c :: cs) = none) :
    eraseStylesAux 0 (c :: cs) = c :: eraseStylesAux 0 cs := by
  simp [eraseStylesAux, h]

theorem eraseStylesAux_plain (t rest : List Char) (ht : escChar ∉ t) :
    eraseStylesAux 0 (t ++ rest) = t ++ eraseStylesAux 0 rest := by
  induction t with
  | nil => rfl
  | cons c t ih =>
    have hc : c ≠ escChar := fun e => ht (e ▸ List.mem_cons_self _ _)
    have ht2 : escChar ∉ t := fun hm => ht (List.mem_cons_of_mem _ hm)
    rw [List.cons_append, eraseStylesAux_cons_none c _ (styleAt_of_ne_esc c _ hc), ih ht2,
      List.cons_append]

theorem eraseStylesAux_text (t rest : List Char) (ht : ∀ code ∈ styleCodes, ¬ code <:+: t)
    (hrest : rest = [] ∨ ∃ r, rest = escChar :: r) :
    eraseStylesAux 0 (t ++ rest) = t ++ eraseStylesAux 0 rest := by
  induction t with
  | nil => rfl
  | cons c t ih =>
    have ht2 : ∀ code ∈ styleCodes, ¬ code <:+: t :=
      fun code hc hi => ht code hc (hi.trans (List.suffix_cons c t).isInfix)
    have hnone : styleAt (c :: (t ++ rest)) = none := by
      rw [styleAt_eq_none_iff]
      intro code hc hp
      have hp2 : code <+: (c :: t) ++ rest := by simpa using hp
      rcases List.prefix_or_prefix_of_prefix hp2 (List.prefix_append (c :: t) rest) with h | h
      · exact ht code hc h.isInfix
      · obtain ⟨k, hk⟩ := h
        subst hk
        have hk2 : k <+: rest := (List.prefix_append_right_inj (c :: t)).mp hp2
        obtain ⟨tail, htail, hesc⟩ := styleCodes_shape _ hc
        cases k with
        | nil =>
          apply ht _ hc
          simp
        | cons x k =>
          rcases hrest with hr | ⟨r, hr⟩
          · subst hr
            simp at hk2
          · subst hr
            have hx : x = escChar := by
              have := List.cons_prefix_cons.mp hk2
              exact this.1
            subst hx
            simp only [List.cons_append, List.cons.injEq] at htail
            apply hesc
            rw [← htail.2]
            simp
    rw [List.cons_append, eraseStylesAux_cons_none c _ hnone, ih ht2, List.cons_append]


theorem erase_style_single (color : String) (h : color.data ∈ styleCodes) (r : List Char) :
    eraseStylesAux 0 (color.data ++ r) = eraseStylesAux 0 r :=
  eraseStylesAux_code _ h r

theorem erase_style_bold (color : String) (h : color.data ∈ styleCodes) (r : List Char) :
    eraseStylesAux 0 ((Bold ++ color).data ++ r) = eraseStylesAux 0 r := by
  rw [String.data_append, List.append_assoc,
    eraseStylesAux_code Bold.data (by decide), eraseStylesAux_code _ h]

theorem erase_colorize (t color : String) (rest : List Char) (ht : NoStyle t)
    (hcolor : ∀ r, eraseStylesAux 0 (color.data ++ r) = eraseStylesAux 0 r) :
    eraseStylesAux 0 ((colorize false t color).data ++ rest)
      = (colorize true t color).data ++ eraseStylesAux 0 rest := by
  have hreset : Reset.data ++ rest = escChar :: (['[', '0', 'm'] ++ rest) := rfl
  simp only [colorize, Bool.false_eq_true, if_false, if_true, String.data_append,
    List.append_assoc]
  rw [hcolor, eraseStylesAux_text t.data (Reset.data ++ rest) ht (Or.inr ⟨_, hreset⟩),
    eraseStylesAux_code Reset.data (by decide)]

theorem erase_newline (rest : List Char) :
    eraseStylesAux 0 ("\n".data ++ rest) = "\n".data ++ eraseStylesAux 0 rest :=
  eraseStylesAux_plain _ _ (by decide)

theorem erase_newline_cons (rest : List Char) :
    eraseStylesAux 0 (['\n'] ++ rest) = ['\n'] ++ eraseStylesAux 0 rest :=
  eraseStylesAux_plain _ _ (by decide)

theorem erase_changeBlock (fmtFloat : Float64 → String) (i : Nat) (change : Change)
    (rest : List Char) (hnum : NoStyle (toString (i + 1) ++ ". "))
    (hpath : NoStyle (pathLabel change.Path))
    (hfrom : NoStyle (formatValue fmtFloat change.From))
    (hto : NoStyle (formatValue fmtFloat change.To)) :
    eraseStylesAux 0 ((changeBlock false fmtFloat i change).data ++ rest)
      = (changeBlock true fmtFloat i change).data ++ eraseStylesAux 0 rest := by
  have hR := erase_style_single Red (by decide)
  have hG := erase_style_single Green (by decide)
  have hY := erase_style_single Yellow (by decide)
  have hBW := erase_style_bold White (by decide)
  have hBR := erase_style_bold Red (by decide)
  have hBG := erase_style_bold Green (by decide)
  have hBY := erase_style_bold Yellow (by decide)
  have huc : UPDATE ≠ CREATE := by decide
  have hdc : DELETE ≠ CREATE := by decide
  have hdu : DELETE ≠ UPDATE := by decide
  unfold changeBlock changeBody
  by_cases h1 : change.Typ = CREATE
  · simp only [h1, if_true, String.data_append, List.append_assoc]
    rw [erase_colorize _ _ _ hnum hBW, erase_colorize _ _ _ (by decide) hBG,
      erase_colorize _ _ _ hpath hG, erase_newline, erase_colorize _ _ _ (by decide) hG,
      erase_colorize _ _ _ hto hBG, erase_newline]
  · by_cases h2 : change.Typ = UPDATE
    · simp only [h2, huc, if_true, if_false, String.data_append, List.append_assoc]
      rw [erase_colorize _ _ _ hnum hBW, erase_colorize _ _ _ (by decide) hBY,
        erase_colorize _ _ _ hpath hY, erase_newline, erase_colorize _ _ _ (by decide) hR,
        erase_colorize _ _ _ hfrom hBR, erase_newline, erase_colorize _ _ _ (by decide) hG,
        erase_colorize _ _ _ hto hBG, erase_newline]
    · by_cases h3 : change.Typ = DELETE
      · simp only [h3, hdc, hdu, if_true, if_false, String.data_append, List.append_assoc]
        rw [erase_colorize _ _ _ hnum hBW, erase_colorize _ _ _ (by decide) hBR,
          erase_colorize _ _ _ hpath hR, erase_newline, erase_colorize _ _ _ (by decide) hR,
          erase_colorize _ _ _ hfrom hBR, erase_newline]
      · simp only [h1, h2, h3, if_false, String.data_append, List.append_assoc]
        rw [erase_colorize _ _ _ hnum hBW]
        simp


theorem digitChar_ne_esc (n : Nat) : Nat.digitChar (n % 10) ≠ escChar := by
  have h : n % 10 < 10 := Nat.mod_lt n (by decide)
  generalize n % 10 = m at h
  interval_cases m <;> decide

theorem toDigitsCore_no_esc (fuel : Nat) :
    ∀ (n : Nat) (ds : List Char), escChar ∉ ds → escChar ∉ Nat.toDigitsCore 10 fuel n ds := by
  induction fuel with
  | zero =>
    intro n ds h
    simpa [Nat.toDigitsCore] using h
  | succ fuel ih =>
    intro n ds h
    have hd : escChar ∉ Nat.digitChar (n % 10) :: ds := by
      intro hm
      rcases List.mem_cons.mp hm with h1 | h1
      · exact digitChar_ne_esc _ h1.symm
      · exact h h1
    simp only [Nat.toDigitsCore]
    split_ifs
    · exact hd
    · exact ih _ _ hd

theorem repr_no_esc (n : Nat) : escChar ∉ (toString n).data := by
  show escChar ∉ (Nat.repr n).data
  simp only [Nat.repr, Nat.toDigits, List.asString]
  exact toDigitsCore_no_esc _ _ _ (by simp)

theorem noStyle_of_no_esc (s : String) (h : escChar ∉ s.data) : NoStyle s := by
  intro code hc hi
  obtain ⟨tail, rfl, -⟩ := styleCodes_shape code hc
  exact h (hi.subset (List.mem_cons_self _ _))

theorem noStyle_number (i : Nat) : NoStyle (toString (i + 1) ++ ". ") := by
  apply noStyle_of_no_esc
  simp only [String.data_append, List.mem_append, not_or]
  exact ⟨repr_no_esc _, by decide⟩

theorem noStyle_found (n : Nat) : NoStyle ("Found " ++ toString n ++ " changes:") := by
  apply noStyle_of_no_esc
  simp only [String.data_append, List.mem_append, not_or]
  exact ⟨⟨by decide, repr_no_esc _⟩, by decide⟩

theorem erase_blocks (fmtFloat : Float64 → String) (changelog : List Change)
    (h : ∀ change ∈ changelog, NoStyle (pathLabel change.Path) ∧
      NoStyle (formatValue fmtFloat change.From) ∧ NoStyle (formatValue fmtFloat change.To)) :
    ∀ (i : Nat) (rest : List Char),
      eraseStylesAux 0 ((String.join ((changelog.enumFrom i).map
          (fun ic => changeBlock false fmtFloat ic.1 ic.2))).data ++ rest)
        = (String.join ((changelog.enumFrom i).map
          (fun ic => changeBlock true fmtFloat ic.1 ic.2))).data ++ eraseStylesAux 0 rest := by
  induction changelog with
  | nil =>
    intro i rest
    simp [String.join]
  | cons change changelog ih =>
    intro i rest
    have hc := h change (List.mem_cons_self _ _)
    have ih2 := ih (fun c hm => h c (List.mem_cons_of_mem _ hm)) (i + 1) rest
    simp only [List.enumFrom_cons, List.map_cons, join_cons, String.data_append,
      List.append_assoc]
    rw [erase_changeBlock fmtFloat i change _ (noStyle_number i) hc.1 hc.2.1 hc.2.2, ih2]

set_option maxRecDepth 100000 in
theorem noStyle_separators : NoStyle (repeatEq 60) ∧ NoStyle (repeatEq 61) :=
  ⟨by decide, by decide⟩

theorem erase_formatDiffOutput (fmtFloat : Float64 → String) (changelog : Changelog)
    (h : ∀ change ∈ changelog, NoStyle (pathLabel change.Path) ∧
      NoStyle (formatValue fmtFloat change.From) ∧ NoStyle (formatValue fmtFloat change.To)) :
    eraseStyles (formatDiffOutput false fmtFloat changelog)
      = formatDiffOutput true fmtFloat changelog := by
  have hC := erase_style_single Cyan (by decide)
  have hY := erase_style_single Yellow (by decide)
  have hBW := erase_style_bold White (by decide)
  have hnil : ∀ l : List Char, l = l ++ [] := fun l => (List.append_nil l).symm
  apply String.ext
  show eraseStylesAux 0 (formatDiffOutput false fmtFloat changelog).data = _
  rw [hnil (formatDiffOutput false fmtFloat changelog).data]
  unfold formatDiffOutput
  by_cases h0 : changelog.length = 0
  · simp only [h0, if_true, String.data_append, List.append_assoc]
    rw [erase_colorize _ _ _ (by decide) hY, erase_newline]
    simp [eraseStylesAux]
  · simp only [h0, if_false, writeChanges_eq, String.data_append, List.append_assoc]
    rw [List.nil_append,
      erase_colorize _ _ _ noStyle_separators.1 hC, erase_newline_cons,
      erase_colorize _ _ _ (noStyle_found _) hBW, erase_newline_cons,
      erase_colorize _ _ _ noStyle_separators.1 hC, erase_newline_cons,
      erase_blocks fmtFloat changelog h, erase_newline_cons,
      erase_colorize _ _ _ noStyle_separators.2 hC, erase_newline_cons]
    simp [eraseStylesAux]


theorem infix_of_infix_sep (l a b : List Char) (x : Char) (hx : x ∉ l)
    (h : l <:+: a ++ x :: b) : l <:+: a ∨ l <:+: b := by
  have hk : ∀ k : List Char, k <+: x :: b → x ∉ k → k = [] := by
    intro k hk hxk
    cases k with
    | nil => rfl
    | cons z k =>
      exfalso
      have := (List.cons_prefix_cons.mp hk).1
      exact hxk (this ▸ List.mem_cons_self _ _)
  induction a with
  | nil =>
    rcases List.infix_cons_iff.mp (by simpa using h) with h1 | h1
    · left
      rw [hk l h1 hx]
    · exact Or.inr h1
  | cons y a ih =>
    rcases List.infix_cons_iff.mp (by simpa using h) with h1 | h1
    · have h2 : l <+: (y :: a) ++ x :: b := by simpa using h1
      rcases List.prefix_or_prefix_of_prefix h2 (List.prefix_append (y :: a) (x :: b)) with h3 | h3
      · exact Or.inl h3.isInfix
      · obtain ⟨k, hkl⟩ := h3
        subst hkl
        have h4 : k <+: x :: b := (List.prefix_append_right_inj (y :: a)).mp h2
        have h5 : k = [] := hk k h4 (fun hm => hx (List.mem_append_right _ hm))
        subst h5
        left
        simp
    · rcases ih h1 with h2 | h2
      · exact Or.inl (h2.trans (List.suffix_cons y a).isInfix)
      · exact Or.inr h2

theorem noStyle_sep (a b : String) (x : Char) (ha : NoStyle a) (hb : NoStyle b)
    (hx : ∀ code ∈ styleCodes, x ∉ code) : NoStyle (a ++ String.mk [x] ++ b) := by
  intro code hc hi
  have hi2 : code <:+: a.data ++ x :: b.data := by
    simpa [String.data_append, List.append_assoc] using hi
  rcases infix_of_infix_sep code _ _ x (hx code hc) hi2 with h | h
  · exact ha code hc h
  · exact hb code hc h

theorem noStyle_plain_append (a b : String) (ha : escChar ∉ a.data) (hb : NoStyle b) :
    NoStyle (a ++ b) := by
  intro code hc hi
  obtain ⟨tail, rfl, -⟩ := styleCodes_shape code hc
  have key : ∀ l : List Char, escChar ∉ l → escChar :: tail <:+: l ++ b.data →
      escChar :: tail <:+: b.data := by
    intro l
    induction l with
    | nil =>
      intro _ h
      simpa using h
    | cons y l ih =>
      intro hl h
      rcases List.infix_cons_iff.mp (by simpa using h) with h1 | h1
      · exfalso
        have := (List.cons_prefix_cons.mp h1).1
        exact hl (this ▸ List.mem_cons_self _ _)
      · exact ih (fun hm => hl (List.mem_cons_of_mem _ hm)) h1
  exact hb _ hc (key a.data ha (by simpa [String.data_append] using hi))

theorem noStyle_take (s : String) (n : Nat) (hs : NoStyle s) : NoStyle (String.mk (s.data.take n)) :=
  fun code hc hi => hs code hc (hi.trans (List.take_prefix n s.data).isInfix)

theorem noStyle_empty : NoStyle "" := by decide


theorem noStyle_of_data_eq (a b : String) (h : a.data = b.data) (ha : NoStyle a) : NoStyle b := by
  have : a = b := String.ext h
  exact this ▸ ha

theorem noStyle_truncated (s : String) (hs : NoStyle s) : NoStyle (sprintPrec97 s ++ "...") := by
  have h := noStyle_sep (String.mk (s.data.take 97)) ".." '.' (noStyle_take s 97 hs)
    (by decide) (by decide)
  exact noStyle_of_data_eq _ _ (by simp [sprintPrec97, String.data_append]) h

theorem noStyle_formatDefault (str : String) (hs : NoStyle str) : NoStyle (formatDefault str) := by
  unfold formatDefault
  split_ifs
  · exact noStyle_truncated str hs
  · exact hs

theorem noStyle_quoted (s : String) (hs : NoStyle s) : NoStyle ("\"" ++ s ++ "\"") := by
  have h1 := noStyle_sep "" s '"' noStyle_empty hs (by decide)
  have h2 := noStyle_sep ("" ++ String.mk ['"'] ++ s) "" '"' h1 noStyle_empty (by decide)
  exact noStyle_of_data_eq _ _ (by simp [String.data_append]) h2

theorem noStyle_flatten_sep (x : Char) (sep : List Char) (hx : ∀ code ∈ styleCodes, x ∉ code)
    (hsep : escChar ∉ sep) (l : List String) (hl : ∀ t ∈ l, NoStyle t) :
    ∀ a : String, NoStyle a →
      NoStyle (String.mk (a.data ++ (l.map (fun b => (x :: sep) ++ b.data)).flatten)) := by
  induction l with
  | nil =>
    intro a ha
    exact noStyle_of_data_eq _ _ (by simp) ha
  | cons b l ih =>
    intro a ha
    have h1 := ih (fun t ht => hl t (List.mem_cons_of_mem _ ht)) b (hl b (List.mem_cons_self _ _))
    have h2 := noStyle_plain_append (String.mk sep) _ hsep h1
    have h3 := noStyle_sep a _ x ha h2 hx
    exact noStyle_of_data_eq _ _ (by simp [String.data_append, List.append_assoc]) h3

theorem noStyle_intercalate (x : Char) (sep : List Char) (hx : ∀ code ∈ styleCodes, x ∉ code)
    (hsep : escChar ∉ sep) (l : List String) (hl : ∀ t ∈ l, NoStyle t) :
    NoStyle ((String.mk (x :: sep)).intercalate l) := by
  cases l with
  | nil => exact noStyle_empty
  | cons a l =>
    have h := noStyle_flatten_sep x sep hx hsep l
      (fun t ht => hl t (List.mem_cons_of_mem _ ht)) a (hl a (List.mem_cons_self _ _))
    exact noStyle_of_data_eq _ _ (by rw [intercalate_cons_data]) h

theorem noStyle_pathLabel (path : List String) (h : ∀ seg ∈ path, NoStyle seg) :
    NoStyle (pathLabel path) := by
  unfold pathLabel
  simp only
  split_ifs
  · decide
  · exact noStyle_intercalate '.' [] (by decide) (by decide) path h

theorem noStyle_formatValue (fmtFloat : Float64 → String) (hfloat : ∀ x, NoStyle (fmtFloat x))
    (v : Value) (h : ∀ t ∈ shownTexts v, NoStyle t) : NoStyle (formatValue fmtFloat v) := by
  cases v with
  | null =>
    have : NoStyle "<nil>" := by decide
    exact this
  | bool b =>
    have ht : NoStyle "true" := by decide
    have hf : NoStyle "false" := by decide
    cases b
    · exact noStyle_formatDefault _ hf
    · exact noStyle_formatDefault _ ht
  | num x => exact noStyle_formatDefault _ (hfloat x)
  | str s =>
    have hs : NoStyle s := h s (by simp [shownTexts])
    simp only [formatValue]
    split_ifs
    · exact noStyle_truncated s hs
    · exact noStyle_quoted s hs
  | arr xs =>
    apply noStyle_of_no_esc
    simp only [formatValue, String.data_append, List.mem_append, not_or]
    exact ⟨⟨by decide, repr_no_esc _⟩, by decide⟩
  | obj kvs =>
    have hkeys : ∀ t ∈ kvs.map Prod.fst, NoStyle t := fun t ht => h t (by simpa [shownTexts] using ht)
    simp only [formatValue]
    split_ifs
    · have h1 := noStyle_intercalate ',' [' '] (by decide) (by decide) ((kvs.map Prod.fst).take 3)
        (fun t ht => hkeys t (List.mem_of_mem_take ht))
      have h2 : NoStyle (".. (" ++ toString (kvs.map Prod.fst).length ++ " keys)]") := by
        apply noStyle_of_no_esc
        simp only [String.data_append, List.mem_append, not_or]
        exact ⟨⟨by decide, repr_no_esc _⟩, by decide⟩
      have h3 := noStyle_sep _ _ '.' h1 h2 (by decide)
      have h4 := noStyle_plain_append "map[" _ (by decide) h3
      exact noStyle_of_data_eq _ _ (by simp [String.data_append, List.append_assoc]) h4
    · have h1 := noStyle_intercalate ',' [' '] (by decide) (by decide) (kvs.map Prod.fst) hkeys
      have h3 := noStyle_sep _ "" ']' h1 noStyle_empty (by decide)
      have h4 := noStyle_plain_append "map[" _ (by decide) h3
      exact noStyle_of_data_eq _ _ (by simp [String.data_append, List.append_assoc]) h4

/-- C8: when no path segment and no string or key shown of a value contains
one of the style sequences (and the number formatting produces none), erasing
the style sequences from the colorized report gives exactly the report
produced with color disabled. -/
theorem eraseStyles_formatDiffOutput (fmtFloat : Float64 → String) (changelog : Changelog)
    (hfloat : ∀ x, NoStyle (fmtFloat x))
    (h : ∀ change ∈ changelog, (∀ seg ∈ change.Path, NoStyle seg) ∧
      (∀ t ∈ shownTexts change.From, NoStyle t) ∧ (∀ t ∈ shownTexts change.To, NoStyle t)) :
    eraseStyles (formatDiffOutput false fmtFloat changelog)
      = formatDiffOutput true fmtFloat changelog := by
  apply erase_formatDiffOutput
  intro change hc
  obtain ⟨h1, h2, h3⟩ := h change hc
  exact ⟨noStyle_pathLabel _ h1, noStyle_formatValue fmtFloat hfloat _ h2,
    noStyle_formatValue fmtFloat hfloat _ h3⟩

theorem noStyle_demoFmtFloat (x : Float64) : NoStyle (demoFmtFloat x) := by
  unfold demoFmtFloat
  split_ifs <;> decide

set_option maxRecDepth 100000 in
/-- C8, on a changelog with a string update, the creation of an object and
the deletion of a number. -/
theorem eraseStyles_formatDiffOutput_witness :
    (∀ x, NoStyle (demoFmtFloat x)) ∧
    (∀ change ∈ styledChangelog, (∀ seg ∈ change.Path, NoStyle seg) ∧
      (∀ t ∈ shownTexts change.From, NoStyle t) ∧ (∀ t ∈ shownTexts change.To, NoStyle t)) ∧
    eraseStyles (formatDiffOutput false demoFmtFloat styledChangelog)
      = formatDiffOutput true demoFmtFloat styledChangelog :=
  ⟨noStyle_demoFmtFloat, by decide,
    eraseStyles_formatDiffOutput demoFmtFloat styledChangelog noStyle_demoFmtFloat (by decide)⟩

/-! ## The watch loop -/

theorem sound_init : State.init.Sound := by
  refine ⟨?_, ?_, ?_⟩ <;> intro _ <;> simp [State.init]

theorem sound_println (st : State) (msg : String) (h : st.Sound) : (st.println msg).Sound := h

/-- What a successful store does to the heap and to `obj`. -/
theorem storeValue_ok (heap heap2 : List Obj) (obj obj2 : Option Nat) (v : Value)
    (hobj : ∀ o, obj = some o → o < heap.length)
    (h : storeValue heap obj v = .ok (heap2, obj2)) :
    heap.length ≤ heap2.length ∧
    (∀ o, obj2 = some o → o < heap2.length) ∧
    (∀ p, p < heap.length → obj ≠ some p → heap2[p]? = heap[p]? ∧ obj2 ≠ some p) := by
  cases v with
  | null =>
    simp only [storeValue, Except.ok.injEq, Prod.mk.injEq] at h
    obtain ⟨rfl, rfl⟩ := h
    exact ⟨le_refl _, by simp, fun p _ _ => ⟨rfl, by simp⟩⟩
  | obj kvs =>
    cases obj with
    | none =>
      simp only [storeValue, Except.ok.injEq, Prod.mk.injEq] at h
      obtain ⟨rfl, rfl⟩ := h
      refine ⟨by simp, ?_, ?_⟩
      · intro o ho
        simp only [Option.some.injEq] at ho
        simp [← ho]
      · intro p hp _
        refine ⟨List.getElem?_append_left hp, ?_⟩
        simp only [ne_eq, Option.some.injEq]
        omega
    | some a =>
      simp only [storeValue, Except.ok.injEq, Prod.mk.injEq] at h
      obtain ⟨rfl, rfl⟩ := h
      refine ⟨by simp, ?_, ?_⟩
      · intro o ho
        simp only [Option.some.injEq] at ho
        simpa [← ho] using hobj a rfl
      · intro p _ hne
        have hap : a ≠ p := fun e => hne (by rw [e])
        exact ⟨by simp [List.getElem?_set, hap], hne⟩
  | bool b => simp [storeValue] at h
  | num x => simp [storeValue] at h
  | str s => simp [storeValue] at h
  | arr xs => simp [storeValue] at h

theorem sound_store (st : State) (v : Value) (heap2 : List Obj) (obj2 : Option Nat)
    (h : st.Sound) (hs : storeValue st.heap st.obj v = .ok (heap2, obj2)) :
    State.Sound { st with heap := heap2, obj := obj2 } := by
  obtain ⟨h1, h2, h3⟩ := h
  obtain ⟨k1, k2, k3⟩ := storeValue_ok _ _ _ _ _ h2 hs
  refine ⟨fun p hp => lt_of_lt_of_le (h1 p hp) k1, k2, ?_⟩
  intro p o hp ho e
  have hne : st.obj ≠ some p := fun hobj => h3 p p hp hobj rfl
  exact (k3 p (h1 p hp) hne).2 (by rw [e]; exact ho)

theorem sound_deepcopy (st : State) (h2 : ∀ o, st.obj = some o → o < st.heap.length) :
    State.Sound { st with heap := (deepcopy st.heap st.obj).1,
                          preObj := (deepcopy st.heap st.obj).2 } := by
  cases hobj : st.obj with
  | none =>
    refine ⟨?_, ?_, ?_⟩ <;> simp [deepcopy, hobj]
  | some a =>
    have ha := h2 a hobj
    refine ⟨?_, ?_, ?_⟩
    · simp [deepcopy]
    · intro o ho
      simp only [hobj, Option.some.injEq] at ho
      simp only [deepcopy, List.length_append, List.length_singleton]
      omega
    · intro p o hp ho
      simp only [deepcopy, Option.some.injEq] at hp
      simp only [hobj, Option.some.injEq] at ho
      omega

theorem seedOrDiff_none (env : Env) (diffWithFirst noColor : Bool) (st : State)
    (h : st.preObj = none) :
    seedOrDiff env diffWithFirst noColor st
      = State.println { st with heap := (deepcopy st.heap st.obj).1,
                                preObj := (deepcopy st.heap st.obj).2 }
          "Watching resource, waiting for changes..." := by
  simp [seedOrDiff, h]

/-- The state after the comparison of the working value with the baseline,
before the baseline policy is applied. -/
theorem seedOrDiff_some (env : Env) (diffWithFirst noColor : Bool) (st : State) (p : Nat)
    (h : st.preObj = some p) :
    ∃ st2 : State, st2.heap = st.heap ∧ st2.preObj = st.preObj ∧ st2.obj = st.obj ∧
      st2.diffCalls = st.diffCalls ++ [(st.baseline, st.working)] ∧
      ((∃ err, env.diff st.baseline st.working = .error err ∧
          st2.logs = st.logs ++ ["Error computing diff: " ++ err] ∧ st2.stdout = st.stdout) ∨
       (∃ cl, env.diff st.baseline st.working = .ok cl ∧ st2.logs = st.logs ∧
          st2.stdout = st.stdout ++ [formatDiffOutput noColor env.fmtFloat cl])) ∧
      seedOrDiff env diffWithFirst noColor st
        = if diffWithFirst then st2
          else { st2 with heap := (deepcopy st2.heap st2.obj).1,
                          preObj := (deepcopy st2.heap st2.obj).2 } := by
  cases hd : env.diff st.baseline st.working with
  | error err =>
    refine ⟨State.println { st with diffCalls := st.diffCalls ++ [(st.baseline, st.working)] }
      ("Error computing diff: " ++ err), rfl, rfl, rfl, rfl, Or.inl ⟨err, rfl, rfl, rfl⟩, ?_⟩
    have hd2 : env.diff (deref st.heap (some p)) (deref st.heap st.obj) = .error err := by
      simpa [State.baseline, State.working, h] using hd
    cases diffWithFirst <;> simp [seedOrDiff, h, hd2, State.baseline, State.working]
  | ok cl =>
    refine ⟨State.print { st with diffCalls := st.diffCalls ++ [(st.baseline, st.working)] }
      (formatDiffOutput noColor env.fmtFloat cl), rfl, rfl, rfl, rfl, Or.inr ⟨cl, rfl, rfl, rfl⟩, ?_⟩
    have hd2 : env.diff (deref st.heap (some p)) (deref st.heap st.obj) = .ok cl := by
      simpa [State.baseline, State.working, h] using hd
    cases diffWithFirst <;> simp [seedOrDiff, h, hd2, State.baseline, State.working]

theorem sound_seedOrDiff (env : Env) (diffWithFirst noColor : Bool) (st : State)
    (h : st.Sound) : (seedOrDiff env diffWithFirst noColor st).Sound := by
  cases hp : st.preObj with
  | none =>
    rw [seedOrDiff_none _ _ _ _ hp]
    exact sound_deepcopy st h.2.1
  | some p =>
    obtain ⟨st2, e1, e2, e3, -, -, e5⟩ := seedOrDiff_some env diffWithFirst noColor st p hp
    have hs2 : st2.Sound := by
      unfold State.Sound
      rw [e1, e2, e3]
      exact h
    rw [e5]
    cases diffWithFirst
    · exact sound_deepcopy st2 hs2.2.1
    · exact hs2

theorem asMap_of_storeValue (heap : List Obj) (obj : Option Nat) (v : Value) :
    (∀ r, storeValue heap obj v = .ok r → (asMap v).isSome = true) ∧
    (∀ err, storeValue heap obj v = .error err → asMap v = none) := by
  cases v with
  | obj kvs => cases obj <;> simp [storeValue, asMap]
  | null => simp [storeValue, asMap]
  | bool b => simp [storeValue, asMap]
  | num x => simp [storeValue, asMap]
  | str s => simp [storeValue, asMap]
  | arr xs => simp [storeValue, asMap]

/-- The two courses of an iteration: a stage before the comparison fails, and
the iteration only logs one line; or the value is stored in `obj` and the
iteration ends with the seeding or the comparison. -/
theorem step_cases (env : Env) (diffWithFirst noColor : Bool) (st : State) (item : String) :
    (∃ msg s, failedStage env st item = some s ∧ s ≠ Stage.diffing ∧ succeeds env item = false ∧
      step env diffWithFirst noColor st item = st.println msg) ∨
    (∃ v heap2 obj2, normalize env item = .ok v ∧
      storeValue st.heap st.obj v = .ok (heap2, obj2) ∧ succeeds env item = true ∧
      step env diffWithFirst noColor st item
        = seedOrDiff env diffWithFirst noColor { st with heap := heap2, obj := obj2 } ∧
      failedStage env st item
        = (match st.preObj with
           | none => none
           | some p =>
             match env.diff (deref heap2 (some p)) (deref heap2 obj2) with
             | .error _ => some Stage.diffing
             | .ok _ => none)) := by
  cases h1 : env.decode item with
  | error err =>
    left
    exact ⟨"Error decoding JSON: " ++ err, Stage.decoding, by simp [failedStage, h1], by decide,
      by simp [succeeds, normalize, h1], by simp [step, h1]⟩
  | ok raw =>
    cases h2 : env.marshal raw with
    | error err =>
      left
      exact ⟨"Error marshaling object to JSON: " ++ err, Stage.marshaling, by simp [failedStage, h1, h2], by decide,
        by simp [succeeds, normalize, h1, h2], by simp [step, h1, h2]⟩
    | ok b =>
      cases h3 : env.neat b with
      | error err =>
        left
        exact ⟨"Error processing object: " ++ err, Stage.normalization, by simp [failedStage, h1, h2, h3], by decide,
          by simp [succeeds, normalize, h1, h2, h3], by simp [step, h1, h2, h3]⟩
      | ok b2 =>
        cases h4 : env.parse b2 with
        | error err =>
          left
          exact ⟨"Error parsing previous object: " ++ err, Stage.reparsing, by simp [failedStage, jsonUnmarshal, h1, h2, h3, h4],
            by decide, by simp [succeeds, normalize, h1, h2, h3, h4],
            by simp [step, jsonUnmarshal, h1, h2, h3, h4]⟩
        | ok v =>
          cases h5 : storeValue st.heap st.obj v with
          | error err =>
            left
            have hm := (asMap_of_storeValue st.heap st.obj v).2 err h5
            exact ⟨"Error parsing previous object: " ++ err, Stage.reparsing, by simp [failedStage, jsonUnmarshal, h1, h2, h3, h4, h5],
              by decide, by simp [succeeds, normalize, h1, h2, h3, h4, hm],
              by simp [step, jsonUnmarshal, h1, h2, h3, h4, h5]⟩
          | ok r =>
            right
            obtain ⟨heap2, obj2⟩ := r
            have hm := (asMap_of_storeValue st.heap st.obj v).1 _ h5
            exact ⟨v, heap2, obj2, by simp [normalize, h1, h2, h3, h4], h5,
              by simp [succeeds, normalize, h1, h2, h3, h4, hm],
              by simp [step, jsonUnmarshal, h1, h2, h3, h4, h5],
              by simp [failedStage, jsonUnmarshal, h1, h2, h3, h4, h5]⟩

theorem sound_step (env : Env) (diffWithFirst noColor : Bool) (st : State) (item : String)
    (h : st.Sound) : (step env diffWithFirst noColor st item).Sound := by
  rcases step_cases env diffWithFirst noColor st item with
    ⟨msg, s, -, -, -, e⟩ | ⟨v, heap2, obj2, -, hs, -, e, -⟩
  · rw [e]
    exact h
  · rw [e]
    exact sound_seedOrDiff _ _ _ _ (sound_store st v heap2 obj2 h hs)

theorem mainLoop_append (env : Env) (diffWithFirst noColor : Bool) (st : State)
    (items : List String) (item : String) :
    mainLoop env diffWithFirst noColor st (items ++ [item])
      = step env diffWithFirst noColor (mainLoop env diffWithFirst noColor st items) item := by
  simp [mainLoop, List.foldl_append]

theorem sound_mainLoop (env : Env) (diffWithFirst noColor : Bool) (items : List String) :
    ∀ st : State, st.Sound → (mainLoop env diffWithFirst noColor st items).Sound := by
  induction items with
  | nil => exact fun st h => h
  | cons item items ih => exact fun st h => ih _ (sound_step env diffWithFirst noColor st item h)

/-- In first-mode an iteration that stores a value in `obj` leaves the
content of a seeded baseline as it is. -/
theorem baseline_first_mode (env : Env) (noColor : Bool) (st : State) (v : Value)
    (heap2 : List Obj) (obj2 : Option Nat) (p : Nat) (h : st.Sound) (hp : st.preObj = some p)
    (hs : storeValue st.heap st.obj v = .ok (heap2, obj2)) :
    (seedOrDiff env true noColor { st with heap := heap2, obj := obj2 }).baseline
      = st.baseline := by
  obtain ⟨st2, e1, e2, -, -, -, e5⟩ :=
    seedOrDiff_some env true noColor { st with heap := heap2, obj := obj2 } p hp
  rw [e5]
  simp only [if_true, State.baseline, e1, e2, hp, deref]
  have hne : st.obj ≠ some p := fun hobj => h.2.2 p p hp hobj rfl
  exact ((storeValue_ok _ _ _ _ _ h.2.1 hs).2.2 p (h.1 p hp) hne).1

/-- In previous-mode an iteration that reaches the comparison ends with the
baseline holding the content of the working value. -/
theorem baseline_previous_mode (env : Env) (noColor : Bool) (st : State) (v : Value)
    (heap2 : List Obj) (obj2 : Option Nat) (p : Nat) (h : st.Sound) (hp : st.preObj = some p)
    (hs : storeValue st.heap st.obj v = .ok (heap2, obj2)) :
    (seedOrDiff env false noColor { st with heap := heap2, obj := obj2 }).baseline
      = (seedOrDiff env false noColor { st with heap := heap2, obj := obj2 }).working := by
  obtain ⟨st2, e1, e2, e3, -, -, e5⟩ :=
    seedOrDiff_some env false noColor { st with heap := heap2, obj := obj2 } p hp
  have hobj2 := (storeValue_ok _ _ _ _ _ h.2.1 hs).2.1
  rw [e5]
  simp only [Bool.false_eq_true, if_false, State.baseline, State.working, e1, e3]
  cases obj2 with
  | none => simp [deepcopy, deref]
  | some a =>
    have ha : a < heap2.length := hobj2 a rfl
    simp [deepcopy, deref, List.getElem?_append_left ha, List.getD_eq_getElem?_getD,
      List.getElem?_eq_getElem ha]

/-- C1, as stated, fails: in previous-mode an item whose diff computation
fails replaces the baseline. -/
theorem baseline_replaced_on_diff_failure_counterexample :
    (mainLoop demoEnv false true State.init [itemA1]).preObj ≠ none ∧
    failedStage demoEnv (mainLoop demoEnv false true State.init [itemA1]) itemAx
      = some Stage.diffing ∧
    (mainLoop demoEnv false true State.init [itemA1]).baseline
      = some [("a", .num f64One)] ∧
    (step demoEnv false true (mainLoop demoEnv false true State.init [itemA1])
      itemAx).baseline = some [("a", .str "x")] ∧
    (step demoEnv false true (mainLoop demoEnv false true State.init [itemA1])
      itemAx).baseline
      ≠ (mainLoop demoEnv false true State.init [itemA1]).baseline := by
  refine ⟨by decide, rfl, rfl, rfl, ?_⟩
  show some [("a", Value.str "x")] ≠ some [("a", Value.num f64One)]
  simp

/-- C1, amended: once the baseline is seeded, an item that fails at decoding,
marshaling, normalization or re-parsing leaves the baseline as it is in both
modes, and so does an item whose diff computation fails in first-mode; in
previous-mode an item whose diff computation fails replaces the baseline by a
copy of the working value, as a successful diff does; and the baseline
changes only in previous-mode and only for an item that reached the diff. -/
theorem baseline_kept_on_failure (env : Env) (diffWithFirst noColor : Bool)
    (items : List String) (item : String)
    (hseed : (mainLoop env diffWithFirst noColor State.init items).preObj ≠ none) :
    (∀ s, failedStage env (mainLoop env diffWithFirst noColor State.init items) item = some s →
      s ≠ Stage.diffing ∨ diffWithFirst = true →
      (step env diffWithFirst noColor
          (mainLoop env diffWithFirst noColor State.init items) item).baseline
        = (mainLoop env diffWithFirst noColor State.init items).baseline) ∧
    (failedStage env (mainLoop env diffWithFirst noColor State.init items) item
        = some Stage.diffing → diffWithFirst = false →
      (step env diffWithFirst noColor
          (mainLoop env diffWithFirst noColor State.init items) item).baseline
        = (step env diffWithFirst noColor
          (mainLoop env diffWithFirst noColor State.init items) item).working) ∧
    ((step env diffWithFirst noColor
          (mainLoop env diffWithFirst noColor State.init items) item).baseline
        ≠ (mainLoop env diffWithFirst noColor State.init items).baseline →
      diffWithFirst = false ∧
      (failedStage env (mainLoop env diffWithFirst noColor State.init items) item = none ∨
        failedStage env (mainLoop env diffWithFirst noColor State.init items) item
          = some Stage.diffing)) := by
  generalize hst : mainLoop env diffWithFirst noColor State.init items = st at hseed ⊢
  have hsound : st.Sound := hst ▸ sound_mainLoop env diffWithFirst noColor items _ sound_init
  obtain ⟨p, hp⟩ := Option.ne_none_iff_exists'.mp hseed
  rcases step_cases env diffWithFirst noColor st item with
    ⟨msg, s0, hf, hs0, -, e⟩ | ⟨v, heap2, obj2, -, hs, -, e, hf⟩
  · rw [e, hf]
    refine ⟨fun _ _ _ => rfl, ?_, fun h => absurd rfl h⟩
    intro h
    exact absurd (Option.some.inj h) hs0
  · have hf2 : failedStage env st item = none ∨ failedStage env st item = some Stage.diffing := by
      rw [hf, hp]
      cases hd : env.diff (deref heap2 (some p)) (deref heap2 obj2) with
      | error err => exact Or.inr (by simp only [hd])
      | ok cl => exact Or.inl (by simp only [hd])
    have hdiffing : ∀ s, failedStage env st item = some s → s = Stage.diffing := by
      intro s h1
      rcases hf2 with h2 | h2
      · rw [h2] at h1
        exact absurd h1 (by simp)
      · rw [h2] at h1
        exact (Option.some.inj h1).symm
    rw [e]
    have hfirst := baseline_first_mode env noColor st v heap2 obj2 p hsound hp hs
    have hprev := baseline_previous_mode env noColor st v heap2 obj2 p hsound hp hs
    cases diffWithFirst with
    | true =>
      exact ⟨fun _ _ _ => hfirst, fun _ h => absurd h (by decide), fun h => absurd hfirst h⟩
    | false =>
      refine ⟨?_, fun _ _ => hprev, fun _ => ⟨rfl, hf2⟩⟩
      intro s h1 h2
      rcases h2 with h2 | h2
      · exact absurd (hdiffing s h1) h2
      · exact absurd h2 (by decide)

/-- C1, amended, on the stream of the specification: after the seed `{"a":1}`
the malformed item fails at decoding and leaves the baseline as it is. -/
theorem baseline_kept_on_failure_witness :
    (mainLoop demoEnv false true State.init [itemA1]).preObj ≠ none ∧
    failedStage demoEnv (mainLoop demoEnv false true State.init [itemA1]) itemBad
      = some Stage.decoding ∧
    (step demoEnv false true (mainLoop demoEnv false true State.init [itemA1]) itemBad).baseline
      = (mainLoop demoEnv false true State.init [itemA1]).baseline :=
  ⟨by decide, rfl,
    (baseline_kept_on_failure demoEnv false true [itemA1] itemBad (by decide)).1
      Stage.decoding rfl (Or.inl (by decide))⟩

theorem counted_step (env : Env) (diffWithFirst noColor : Bool) (st : State) (item : String)
    (k : Nat) (hsound : st.Sound) (h : Counted st k) :
    Counted (step env diffWithFirst noColor st item)
      (k + (if succeeds env item then 1 else 0)) := by
  obtain ⟨c1, c2, c3, c4⟩ := h
  rcases step_cases env diffWithFirst noColor st item with
    ⟨msg, s, -, -, hsucc, e⟩ | ⟨v, heap2, obj2, -, hs, hsucc, e, -⟩
  · rw [e, hsucc]
    exact ⟨c1, c2, c3, c4⟩
  · rw [e, hsucc]
    simp only [if_true]
    rcases Option.eq_none_or_eq_some st.preObj with hp | ⟨p, hp⟩
    · rw [seedOrDiff_none env diffWithFirst noColor { st with heap := heap2, obj := obj2 } hp]
      refine ⟨?_, fun _ => by omega, c3, c4⟩
      show st.stdout.length ≤ k + 1 - 1
      omega
    · have hk : 1 ≤ k := c2 (by simp [hp])
      obtain ⟨st2, e1, e2, e3, e4, e5, e6⟩ :=
        seedOrDiff_some env diffWithFirst noColor { st with heap := heap2, obj := obj2 } p hp
      have hlen : st2.stdout.length ≤ st.stdout.length + 1 := by
        rcases e5 with ⟨err, -, -, e⟩ | ⟨cl, -, -, e⟩
        · rw [e]
          exact Nat.le_succ _
        · rw [e]
          simp
      have hcalls : st2.diffCalls.length = st.diffCalls.length + 1 := by
        rw [e4]
        simp
      have hbase : (State.baseline { st with heap := heap2, obj := obj2 }) ≠ none := by
        have hlt : p < heap2.length :=
          lt_of_lt_of_le (hsound.1 p hp) (storeValue_ok _ _ _ _ _ hsound.2.1 hs).1
        simp [State.baseline, deref, hp, List.getElem?_eq_getElem hlt]
      have hall : ∀ c ∈ st2.diffCalls, c.1 ≠ none := by
        intro c hc
        rw [e4] at hc
        rcases List.mem_append.mp hc with h1 | h1
        · exact c4 c h1
        · rw [List.mem_singleton.mp h1]
          exact hbase
      have hres : Counted st2 (k + 1) := by
        refine ⟨?_, fun _ => by omega, by omega, hall⟩
        show st2.stdout.length ≤ k + 1 - 1
        omega
      rw [e6]
      cases diffWithFirst
      · exact ⟨hres.1, fun _ => by omega, hres.2.2.1, hres.2.2.2⟩
      · exact hres

theorem counted_mainLoop (env : Env) (diffWithFirst noColor : Bool) (items : List String) :
    Counted (mainLoop env diffWithFirst noColor State.init items)
      (items.filter (succeeds env)).length := by
  induction items using List.reverseRecOn with
  | nil =>
    refine ⟨?_, ?_, ?_, ?_⟩ <;> simp [mainLoop, State.init]
  | append_singleton items item ih =>
    have h := counted_step env diffWithFirst noColor _ item _
      (sound_mainLoop env diffWithFirst noColor items _ sound_init) ih
    rw [mainLoop_append, List.filter_append, List.length_append]
    cases hs : succeeds env item <;> simpa [hs] using h

theorem mainLoop_all_fail (env : Env) (diffWithFirst noColor : Bool) (pre : List String)
    (h : ∀ x ∈ pre, succeeds env x = false) :
    (mainLoop env diffWithFirst noColor State.init pre).heap = [] ∧
    (mainLoop env diffWithFirst noColor State.init pre).preObj = none ∧
    (mainLoop env diffWithFirst noColor State.init pre).obj = none ∧
    (mainLoop env diffWithFirst noColor State.init pre).stdout = [] ∧
    (mainLoop env diffWithFirst noColor State.init pre).diffCalls = [] := by
  induction pre using List.reverseRecOn with
  | nil => simp [mainLoop, State.init]
  | append_singleton pre item ih =>
    have ih2 := ih (fun x hx => h x (List.mem_append_left _ hx))
    have hitem : succeeds env item = false := h item (by simp)
    rw [mainLoop_append]
    rcases step_cases env diffWithFirst noColor
        (mainLoop env diffWithFirst noColor State.init pre) item with
      ⟨msg, s, -, -, -, e⟩ | ⟨v, heap2, obj2, -, -, hsucc, -, -⟩
    · rw [e]
      exact ih2
    · rw [hitem] at hsucc
      exact absurd hsucc (by decide)

theorem step_first_success (env : Env) (diffWithFirst noColor : Bool) (st : State)
    (item : String) (v : Value) (m : Option Obj)
    (h1 : st.heap = []) (h2 : st.preObj = none) (h3 : st.obj = none)
    (hn : normalize env item = .ok v) (hm : asMap v = some m) :
    (step env diffWithFirst noColor st item).baseline = m ∧
    (step env diffWithFirst noColor st item).working = m ∧
    (step env diffWithFirst noColor st item).stdout = st.stdout ∧
    (step env diffWithFirst noColor st item).diffCalls = st.diffCalls ∧
    (step env diffWithFirst noColor st item).logs
      = st.logs ++ ["Watching resource, waiting for changes..."] := by
  rcases step_cases env diffWithFirst noColor st item with
    ⟨msg, s, -, -, hsucc, -⟩ | ⟨v2, heap2, obj2, hn2, hs, -, e, -⟩
  · simp [succeeds, hn, hm] at hsucc
  · rw [hn] at hn2
    have hv : v = v2 := Except.ok.inj hn2
    subst hv
    rw [e, seedOrDiff_none env diffWithFirst noColor { st with heap := heap2, obj := obj2 } h2]
    rw [h1, h3] at hs
    cases v with
    | null =>
      simp only [storeValue, Except.ok.injEq, Prod.mk.injEq] at hs
      simp only [asMap, Option.some.injEq] at hm
      obtain ⟨rfl, rfl⟩ := hs
      subst hm
      simp [State.println, State.baseline, State.working, deepcopy, deref]
    | obj kvs =>
      simp only [storeValue, Except.ok.injEq, Prod.mk.injEq] at hs
      simp only [asMap, Option.some.injEq] at hm
      obtain ⟨rfl, rfl⟩ := hs
      subst hm
      simp [State.println, State.baseline, State.working, deepcopy, deref]
    | bool b => simp [asMap] at hm
    | num x => simp [asMap] at hm
    | str s => simp [asMap] at hm
    | arr xs => simp [asMap] at hm

/-- C2, at the failing input: on the stream `{"a":1,"b":2}`, `{"a":1}` the
second item is normalized to an object without the key b, and the value the
loop passes to the diff as the new operand still has the key b of the first
item, so the loop reports no change. -/
theorem stale_key_in_new_operand :
    normalize demoEnv itemA1 = .ok (.obj [("a", .num f64One)]) ∧
    (mainLoop demoEnv false true State.init [itemAB, itemA1]).diffCalls
      = [(some [("a", .num f64One), ("b", .num f64Two)],
          some [("a", .num f64One), ("b", .num f64Two)])] ∧
    (mainLoop demoEnv false true State.init [itemAB, itemA1]).stdout
      = ["No changes detected\n"] :=
  ⟨rfl, rfl, by decide⟩

/-- C3, at the failing input: on the snapshots `{"a":1,"b":2}`, `{"a":1}`,
`{"a":2}` the old operand of both diffs of first-mode is the first snapshot,
but the new operands keep its key b; and in previous-mode the baseline after
the second snapshot still has the key b, so the diffs are not those of the
second against the first and the third against the second. -/
theorem baseline_policy_on_dropped_key :
    (mainLoop demoEnv true true State.init
        [itemAB, itemA1, itemA2]).diffCalls
      = [(some [("a", .num f64One), ("b", .num f64Two)],
          some [("a", .num f64One), ("b", .num f64Two)]),
         (some [("a", .num f64One), ("b", .num f64Two)],
          some [("a", .num f64Two), ("b", .num f64Two)])] ∧
    (mainLoop demoEnv false true State.init
        [itemAB, itemA1, itemA2]).diffCalls
      = [(some [("a", .num f64One), ("b", .num f64Two)],
          some [("a", .num f64One), ("b", .num f64Two)]),
         (some [("a", .num f64One), ("b", .num f64Two)],
          some [("a", .num f64Two), ("b", .num f64Two)])] ∧
    (mainLoop demoEnv false true State.init
        [itemAB, itemA1]).baseline
      = some [("a", .num f64One), ("b", .num f64Two)] ∧
    normalize demoEnv itemA1 = .ok (.obj [("a", .num f64One)]) ∧
    normalize demoEnv itemA2 = .ok (.obj [("a", .num f64Two)]) :=
  ⟨rfl, rfl, rfl, rfl, rfl⟩

/-! ## Further summaries -/

/-- C11: the report of the empty changelog is the one line "No changes
detected": with color disabled it is exactly that text followed by one
newline, and with color enabled the same line in the style Yellow; it has no
header, separator or numbered block. -/
theorem formatDiffOutput_empty (fmtFloat : Float64 → String) :
    formatDiffOutput true fmtFloat [] = "No changes detected\n" ∧
    formatDiffOutput false fmtFloat [] = Yellow ++ "No changes detected" ++ Reset ++ "\n" ∧
    (formatDiffOutput true fmtFloat []).data.count '\n' = 1 ∧
    (formatDiffOutput false fmtFloat []).data.count '\n' = 1 ∧
    '=' ∉ (formatDiffOutput true fmtFloat []).data ∧
    ¬ ("1. ").data <:+: (formatDiffOutput true fmtFloat []).data := by
  refine ⟨rfl, rfl, ?_, ?_, ?_, ?_⟩
  · show ("No changes detected\n" : String).data.count '\n' = 1
    decide
  · show (Yellow ++ "No changes detected" ++ Reset ++ "\n" : String).data.count '\n' = 1
    decide
  · show '=' ∉ ("No changes detected\n" : String).data
    decide
  · show ¬ ("1. ").data <:+: ("No changes detected\n" : String).data
    decide

/-- C13: the summary of an array is "array[n items]" with n its length, so
two arrays of the same length have the same summary whatever their elements. -/
theorem formatValue_array (fmtFloat : Float64 → String) (xs ys : List Value)
    (h : xs.length = ys.length) :
    formatValue fmtFloat (.arr xs) = "array[" ++ toString xs.length ++ " items]" ∧
    formatValue fmtFloat (.arr xs) = formatValue fmtFloat (.arr ys) := by
  simp [formatValue, h]

/-- C13, on two arrays of length 2 with different elements. -/
theorem formatValue_array_witness :
    [Value.num f64One, Value.str "x"].length = [Value.null, Value.arr []].length ∧
    formatValue demoFmtFloat (.arr [.num f64One, .str "x"]) = "array[2 items]" ∧
    formatValue demoFmtFloat (.arr [.num f64One, .str "x"])
      = formatValue demoFmtFloat (.arr [.null, .arr []]) :=
  ⟨rfl, by decide, (formatValue_array demoFmtFloat _ _ rfl).2⟩

set_option maxRecDepth 100000 in
/-- C15, at the failing input: the string of 51 times the letter é has 51
code points and 102 bytes; its summary is the whole string followed by "...",
without the double quotes. -/
theorem formatValue_multibyte_string :
    (String.mk (List.replicate 51 'é')).length = 51 ∧
    (String.mk (List.replicate 51 'é')).utf8ByteSize = 102 ∧
    formatValue demoFmtFloat (.str (String.mk (List.replicate 51 'é')))
      = String.mk (List.replicate 51 'é') ++ "..." ∧
    formatValue demoFmtFloat (.str (String.mk (List.replicate 51 'é')))
      ≠ "\"" ++ String.mk (List.replicate 51 'é') ++ "\"" :=
  ⟨by decide, by decide, by decide, by decide⟩

/-! ## Path labels -/

theorem append_cons_inj_of_not_mem (x : Char) :
    ∀ (a b r s : List Char), x ∉ a → x ∉ b → a ++ x :: r = b ++ x :: s → a = b ∧ r = s := by
  intro a
  induction a with
  | nil =>
    intro b r s _ hb h
    cases b with
    | nil => exact ⟨rfl, by simpa using h⟩
    | cons y b =>
      exfalso
      simp only [List.nil_append, List.cons_append, List.cons.injEq] at h
      exact hb (h.1 ▸ List.mem_cons_self _ _)
  | cons y a ih =>
    intro b r s ha hb h
    cases b with
    | nil =>
      exfalso
      simp only [List.nil_append, List.cons_append, List.cons.injEq] at h
      exact ha (h.1 ▸ List.mem_cons_self _ _)
    | cons z b =>
      simp only [List.cons_append, List.cons.injEq] at h
      obtain ⟨h1, h2⟩ := ih b r s (fun hm => ha (List.mem_cons_of_mem _ hm))
        (fun hm => hb (List.mem_cons_of_mem _ hm)) h.2
      exact ⟨by rw [h.1, h1], h2⟩

/-- Joining segments without "." by "." loses nothing: the segments can be
read back from the joined text. -/
theorem flatten_dot_inj :
    ∀ (l m : List String) (a b : List Char), '.' ∉ a → '.' ∉ b →
      (∀ t ∈ l, '.' ∉ t.data) → (∀ t ∈ m, '.' ∉ t.data) →
      a ++ (l.map (fun t => ".".data ++ t.data)).flatten
        = b ++ (m.map (fun t => ".".data ++ t.data)).flatten →
      a = b ∧ l = m := by
  have hdot : ".".data = ['.'] := rfl
  intro l
  induction l with
  | nil =>
    intro m a b ha hb _ hm h
    cases m with
    | nil => exact ⟨by simpa using h, rfl⟩
    | cons t m =>
      exfalso
      apply ha
      simp only [List.map_nil, List.flatten_nil, List.append_nil, List.map_cons,
        List.flatten_cons, hdot] at h
      rw [h]
      simp
  | cons u l ih =>
    intro m a b ha hb hl hm h
    cases m with
    | nil =>
      exfalso
      apply hb
      simp only [List.map_nil, List.flatten_nil, List.append_nil, List.map_cons,
        List.flatten_cons, hdot] at h
      rw [← h]
      simp
    | cons t m =>
      simp only [List.map_cons, List.flatten_cons, hdot, List.singleton_append,
        List.cons_append, List.nil_append] at h
      obtain ⟨h1, h2⟩ := append_cons_inj_of_not_mem '.' a b _ _ ha hb h
      obtain ⟨h3, h4⟩ := ih m u.data t.data (hl u (List.mem_cons_self _ _))
        (hm t (List.mem_cons_self _ _)) (fun x hx => hl x (List.mem_cons_of_mem _ hx))
        (fun x hx => hm x (List.mem_cons_of_mem _ hx)) h2
      exact ⟨h1, by rw [String.ext h3, h4]⟩

theorem intercalate_dot_inj (p q : List String) (hp : ∀ t ∈ p, '.' ∉ t.data)
    (hq : ∀ t ∈ q, '.' ∉ t.data) (hp0 : p ≠ []) (hq0 : q ≠ [])
    (h : ".".intercalate p = ".".intercalate q) : p = q := by
  cases p with
  | nil => exact absurd rfl hp0
  | cons a l =>
    cases q with
    | nil => exact absurd rfl hq0
    | cons b m =>
      have hd := congrArg String.data h
      rw [intercalate_cons_data, intercalate_cons_data] at hd
      obtain ⟨h1, h2⟩ := flatten_dot_inj l m a.data b.data (hp a (List.mem_cons_self _ _))
        (hq b (List.mem_cons_self _ _)) (fun x hx => hp x (List.mem_cons_of_mem _ hx))
        (fun x hx => hq x (List.mem_cons_of_mem _ hx)) hd
      rw [String.ext h1, h2]


/-- C16, as stated, fails: a segment containing "." is labelled like the
longer path, and the paths of the single segment "" and of the single segment
"root" are labelled "root" like the empty path. -/
theorem pathLabel_collision_counterexample :
    (["a.b"] : List String) ≠ ["a", "b"] ∧ pathLabel ["a.b"] = pathLabel ["a", "b"] ∧
    ([""] : List String) ≠ [] ∧ pathLabel [""] = pathLabel [] ∧
    (["root"] : List String) ≠ [] ∧ pathLabel ["root"] = pathLabel [] :=
  ⟨by decide, by decide, by decide, by decide, by decide, by decide⟩

theorem pathLabel_of_ne (p : List String) (h0 : p ≠ []) (h1 : p ≠ [""]) :
    pathLabel p = ".".intercalate p := by
  have h : ¬ ".".intercalate p = "" := fun e =>
    (intercalate_dot_eq_empty p).mp e |>.elim h0 h1
  simp [pathLabel, h]

theorem pathLabel_ne_root (p : List String) (hp : ∀ t ∈ p, '.' ∉ t.data) (h0 : p ≠ [])
    (h1 : p ≠ [""]) (h2 : p ≠ ["root"]) : pathLabel p ≠ "root" := by
  rw [pathLabel_of_ne p h0 h1]
  intro e
  have e2 : ".".intercalate p = ".".intercalate ["root"] := e
  exact h2 (intercalate_dot_inj p ["root"] hp (by decide) h0 (by decide) e2)

/-- C16, amended: two different paths whose segments contain no "." and
neither of which is the single segment "" or the single segment "root" have
different labels. -/
theorem pathLabel_injective (p q : List String) (hp : ∀ t ∈ p, '.' ∉ t.data)
    (hq : ∀ t ∈ q, '.' ∉ t.data) (hp1 : p ≠ [""]) (hp2 : p ≠ ["root"]) (hq1 : q ≠ [""])
    (hq2 : q ≠ ["root"]) (hne : p ≠ q) : pathLabel p ≠ pathLabel q := by
  by_cases hp0 : p = []
  · by_cases hq0 : q = []
    · exact absurd (hp0.trans hq0.symm) hne
    · intro e
      rw [hp0] at e
      exact pathLabel_ne_root q hq hq0 hq1 hq2 e.symm
  · by_cases hq0 : q = []
    · intro e
      rw [hq0] at e
      exact pathLabel_ne_root p hp hp0 hp1 hp2 e
    · rw [pathLabel_of_ne p hp0 hp1, pathLabel_of_ne q hq0 hq1]
      exact fun e => hne (intercalate_dot_inj p q hp hq hp0 hq0 e)

/-- C16, amended, on the paths `spec` and `spec.replicas`. -/
theorem pathLabel_injective_witness :
    (∀ t ∈ ["spec"], '.' ∉ t.data) ∧ (∀ t ∈ ["spec", "replicas"], '.' ∉ t.data) ∧
    (["spec"] : List String) ≠ ["spec", "replicas"] ∧
    pathLabel ["spec"] ≠ pathLabel ["spec", "replicas"] :=
  ⟨by decide, by decide, by decide,
    pathLabel_injective ["spec"] ["spec", "replicas"] (by decide) (by decide) (by decide)
      (by decide) (by decide) (by decide) (by decide)⟩

/-! ## The decoder and the failure paths -/

/-- The body of the loop on the result of decoding an item is the iteration
`step` on that item. -/
theorem loopBody_decode (env : Env) (diffWithFirst noColor : Bool) (st : State)
    (item : String) :
    loopBody env diffWithFirst noColor st (env.decode item)
      = step env diffWithFirst noColor st item := by
  unfold loopBody step
  rfl

theorem mainFor_stuck (env : Env) (scanError : String → Option String)
    (diffWithFirst noColor : Bool) (item : String) (rest : List String) (err : String)
    (hmore : Decoder.More ⟨item :: rest, some err⟩ = true) :
    ∀ (n : Nat) (st : State),
      mainFor env scanError diffWithFirst noColor n ⟨item :: rest, some err⟩ st
        = { st with logs := st.logs ++ List.replicate n ("Error decoding JSON: " ++ err) } := by
  intro n
  induction n with
  | zero =>
    intro st
    simp [mainFor]
  | succ n ih =>
    intro st
    rw [mainFor, if_pos hmore]
    simp only [Decoder.Decode, loopBody]
    rw [ih]
    simp [State.println, List.replicate_succ]

/-- C12, at the failing input: on the stream `{"a":1}`, malformed item,
`{"a":2}` the decoder keeps the syntax error of the second item, so every
further iteration logs the same error line again; the third item is never
read and no diff is ever computed. -/
theorem decode_error_repeats (n : Nat) :
    (mainFor demoEnv demoScanError false true (n + 2) ⟨[itemA1, itemBad, itemA2], none⟩
        State.init).logs
      = ["Starting kube-watch-neat-diff", "Watching resource, waiting for changes..."]
        ++ List.replicate (n + 1) "Error decoding JSON: invalid character" ∧
    (mainFor demoEnv demoScanError false true (n + 2) ⟨[itemA1, itemBad, itemA2], none⟩
        State.init).stdout = [] ∧
    (mainFor demoEnv demoScanError false true (n + 2) ⟨[itemA1, itemBad, itemA2], none⟩
        State.init).diffCalls = [] := by
  have h : mainFor demoEnv demoScanError false true (n + 2) ⟨[itemA1, itemBad, itemA2], none⟩
      State.init
      = mainFor demoEnv demoScanError false true n ⟨[itemBad, itemA2], some "invalid character"⟩
          (State.println (step demoEnv false true State.init itemA1)
            "Error decoding JSON: invalid character") := rfl
  rw [h, mainFor_stuck demoEnv demoScanError false true itemBad [itemA2] "invalid character"
    (by decide) n]
  refine ⟨?_, rfl, rfl⟩
  show ["Starting kube-watch-neat-diff", "Watching resource, waiting for changes...",
      "Error decoding JSON: invalid character"]
        ++ List.replicate n ("Error decoding JSON: " ++ "invalid character") = _
  simp [List.replicate_succ]

/-- One iteration on an item that fails at some stage logs exactly one line
and writes no report. -/
theorem failure_logs_one_line (env : Env) (diffWithFirst noColor : Bool) (st : State)
    (item : String) (s : Stage) (h : failedStage env st item = some s) :
    ∃ line, (step env diffWithFirst noColor st item).logs = st.logs ++ [line] ∧
      (step env diffWithFirst noColor st item).stdout = st.stdout := by
  rcases step_cases env diffWithFirst noColor st item with
    ⟨msg, s0, -, -, -, e⟩ | ⟨v, heap2, obj2, -, -, -, e, hf⟩
  · exact ⟨msg, by rw [e]; rfl, by rw [e]; rfl⟩
  · rw [h] at hf
    rcases Option.eq_none_or_eq_some st.preObj with hp | ⟨p, hp⟩
    · rw [hp] at hf
      exact absurd hf (by simp)
    · rw [hp] at hf
      obtain ⟨st2, -, -, -, -, e5, e6⟩ :=
        seedOrDiff_some env diffWithFirst noColor { st with heap := heap2, obj := obj2 } p hp
      have hlogs : ∃ line, st2.logs = st.logs ++ [line] ∧ st2.stdout = st.stdout := by
        rcases e5 with ⟨err, -, e1, e2⟩ | ⟨cl, hd, -, -⟩
        · exact ⟨_, e1, e2⟩
        · exfalso
          have hd2 : env.diff (deref heap2 (some p)) (deref heap2 obj2) = .ok cl := by
            simpa [State.baseline, State.working, hp] using hd
          simp only [hd2] at hf
          exact absurd hf (by simp)
      obtain ⟨line, e1, e2⟩ := hlogs
      rw [e, e6]
      cases diffWithFirst
      · exact ⟨line, e1, e2⟩
      · exact ⟨line, e1, e2⟩

/-- On a stream without syntax errors the loop runs the iteration `step` on
the items one after the other. -/
theorem mainFor_eq_mainLoop (env : Env) (scanError : String → Option String)
    (diffWithFirst noColor : Bool) (stream : List String)
    (hscan : ∀ x ∈ stream, scanError x = none)
    (hmore : ∀ x ∈ stream, ∀ rest, Decoder.More ⟨x :: rest, none⟩ = true) :
    ∀ st : State,
      mainFor env scanError diffWithFirst noColor stream.length ⟨stream, none⟩ st
        = mainLoop env diffWithFirst noColor st stream := by
  induction stream with
  | nil =>
    intro st
    rfl
  | cons item rest ih =>
    intro st
    have h1 := hscan item (List.mem_cons_self _ _)
    have h2 := hmore item (List.mem_cons_self _ _) rest
    have ih2 := ih (fun x hx => hscan x (List.mem_cons_of_mem _ hx))
      (fun x hx => hmore x (List.mem_cons_of_mem _ hx))
    rw [List.length_cons, mainFor, if_pos h2]
    simp only [Decoder.Decode, h1, loopBody_decode]
    rw [ih2]
    rfl

/-! ## Idempotence of the diff -/

theorem lookup_of_mem (kvs : Obj) (h : (kvs.map Prod.fst).Nodup) :
    ∀ kv ∈ kvs, kvs.lookup kv.1 = some kv.2 := by
  induction kvs with
  | nil => simp
  | cons e kvs ih =>
    obtain ⟨k, v⟩ := e
    simp only [List.map_cons, List.nodup_cons] at h
    intro kv hkv
    rcases List.mem_cons.mp hkv with h1 | h1
    · subst h1
      simp [List.lookup]
    · have hne : kv.1 ≠ k := by
        intro e
        apply h.1
        rw [← e]
        exact List.mem_map_of_mem Prod.fst h1
      have hb : (kv.1 == k) = false := by simpa using hne
      simp only [List.lookup, hb]
      exact ih h.2 kv h1

theorem specCreates_self (path : List String) (kvs : Obj) (h : (kvs.map Prod.fst).Nodup) :
    specCreates path kvs kvs = [] := by
  unfold specCreates
  rw [List.map_eq_nil_iff, List.filter_eq_nil_iff]
  intro kv hkv
  simp [lookup_of_mem kvs h kv hkv]

mutual
/-- Idempotence of the Diff Engine of the specification: the diff of a
well-formed value with itself is the empty changelog, at every path. -/
theorem specDiffAt_self : ∀ (v : Value) (path : List String), v.wellFormed = true →
    specDiffAt path v v = []
  | .obj kvs, path, h => by
    simp only [Value.wellFormed, Bool.and_eq_true, decide_eq_true_eq] at h
    rw [specDiffAt, specCreates_self path kvs h.1,
      specDiffFields_self kvs kvs path h.2 (lookup_of_mem kvs h.1)]
    rfl
  | .arr xs, path, h => by
    simp only [Value.wellFormed] at h
    rw [specDiffAt, specDiffItems_self xs path 0 h]
  | .null, path, _ => by simp [specDiffAt, scalarEqb]
  | .bool b, path, _ => by simp [specDiffAt, scalarEqb]
  | .num x, path, _ => by simp [specDiffAt, scalarEqb]
  | .str s, path, _ => by simp [specDiffAt, scalarEqb]
theorem specDiffFields_self : ∀ (kvs new : Obj) (path : List String),
    Value.wellFormedFields kvs = true → (∀ kv ∈ kvs, new.lookup kv.1 = some kv.2) →
    specDiffFields path new kvs = []
  | [], new, path, _, _ => by simp [specDiffFields]
  | (k, v) :: rest, new, path, h, hl => by
    simp only [Value.wellFormedFields, Bool.and_eq_true] at h
    have h1 : new.lookup k = some v := hl (k, v) (List.mem_cons_self _ _)
    simp only [specDiffFields, h1]
    rw [specDiffAt_self v (path ++ [k]) h.1,
      specDiffFields_self rest new path h.2 (fun kv hkv => hl kv (List.mem_cons_of_mem _ hkv))]
    rfl
theorem specDiffItems_self : ∀ (xs : List Value) (path : List String) (i : Nat),
    Value.wellFormedItems xs = true → specDiffItems path i xs xs = []
  | [], path, i, _ => by simp [specDiffItems]
  | x :: rest, path, i, h => by
    simp only [Value.wellFormedItems, Bool.and_eq_true] at h
    rw [specDiffItems, specDiffAt_self x (path ++ [toString i]) h.1,
      specDiffItems_self rest path (i + 1) h.2]
    rfl
end

/-- When the working value has the content of the baseline, the comparison
with the Diff Engine of the specification writes the report "No changes
detected". -/
theorem equal_operands_no_changes (env : Env) (diffWithFirst : Bool) (st : State) (p : Nat)
    (m : Obj) (hdiff : env.diff = specDiff) (hp : st.preObj = some p)
    (hb : st.baseline = some m) (hw : st.working = some m)
    (hm : (Value.obj m).wellFormed = true) :
    (seedOrDiff env diffWithFirst true st).stdout = st.stdout ++ ["No changes detected\n"] := by
  obtain ⟨st2, -, -, -, -, e5, e6⟩ := seedOrDiff_some env diffWithFirst true st p hp
  have hcl : env.diff st.baseline st.working = .ok [] := by
    rw [hdiff, hb, hw]
    show Except.ok (specDiffAt [] (Value.obj m) (Value.obj m)) = Except.ok []
    rw [specDiffAt_self (Value.obj m) [] hm]
  have hout : st2.stdout = st.stdout ++ ["No changes detected\n"] := by
    rcases e5 with ⟨err, hd, -, -⟩ | ⟨cl, hd, -, e⟩
    · rw [hcl] at hd
      exact absurd hd (by simp)
    · rw [hcl] at hd
      have hcl2 : cl = [] := (Except.ok.inj hd).symm
      rw [e, hcl2]
      rfl
  rw [e6]
  cases diffWithFirst
  · exact hout
  · exact hout

set_option maxRecDepth 100000 in
/-- C14, at the failing input: in first-mode, on the stream `{"a":1}`,
`{"a":1,"b":2}`, `{"a":1}` the third item is equal to the baseline, but the
loop compares the baseline with a working value that still has the key b, and
the report for the third item is the creation of b, not "No changes
detected". -/
theorem item_equal_to_baseline_reported_changed :
    (mainLoop specEnv true true State.init [itemA1, itemAB]).baseline
      = some [("a", .num f64One)] ∧
    normalize specEnv itemA1 = .ok (.obj [("a", .num f64One)]) ∧
    (mainLoop specEnv true true State.init [itemA1, itemAB, itemA1]).diffCalls.getLast?
      = some (some [("a", .num f64One)], some [("a", .num f64One), ("b", .num f64Two)]) ∧
    (mainLoop specEnv true true State.init [itemA1, itemAB, itemA1]).stdout.getLast?
      = some (formatDiffOutput true demoFmtFloat [⟨CREATE, ["b"], .null, .num f64Two⟩]) ∧
    (mainLoop specEnv true true State.init [itemA1, itemAB, itemA1]).stdout.getLast?
      ≠ some "No changes detected\n" :=
  ⟨rfl, rfl, rfl, rfl, by decide⟩

/-! ## Determinism of the rendering -/

theorem changeBlock_congr (noColor : Bool) (fmtFloat : Float64 → String) (i : Nat)
    (c₁ c₂ : Change) (h : shownOf fmtFloat c₁ = shownOf fmtFloat c₂) :
    changeBlock noColor fmtFloat i c₁ = changeBlock noColor fmtFloat i c₂ := by
  simp only [shownOf, Prod.mk.injEq] at h
  obtain ⟨h1, h2, h3, h4⟩ := h
  simp only [changeBlock, changeBody, h1, h2, h3, h4]

theorem blocks_congr (noColor : Bool) (fmtFloat : Float64 → String) :
    ∀ (cl₁ cl₂ : List Change) (i : Nat),
      cl₁.map (shownOf fmtFloat) = cl₂.map (shownOf fmtFloat) →
      (cl₁.enumFrom i).map (fun ic => changeBlock noColor fmtFloat ic.1 ic.2)
        = (cl₂.enumFrom i).map (fun ic => changeBlock noColor fmtFloat ic.1 ic.2) := by
  intro cl₁
  induction cl₁ with
  | nil =>
    intro cl₂ i h
    cases cl₂ with
    | nil => rfl
    | cons c cl₂ => simp at h
  | cons c₁ cl₁ ih =>
    intro cl₂ i h
    cases cl₂ with
    | nil => simp at h
    | cons c₂ cl₂ =>
      simp only [List.map_cons, List.cons.injEq] at h
      simp only [List.enumFrom_cons, List.map_cons, changeBlock_congr noColor fmtFloat i c₁ c₂ h.1,
        ih cl₂ (i + 1) h.2]

theorem formatDiffOutput_congr (noColor : Bool) (fmtFloat : Float64 → String)
    (cl₁ cl₂ : Changelog) (h : cl₁.map (shownOf fmtFloat) = cl₂.map (shownOf fmtFloat)) :
    formatDiffOutput noColor fmtFloat cl₁ = formatDiffOutput noColor fmtFloat cl₂ := by
  have hlen : cl₁.length = cl₂.length := by
    have := congrArg List.length h
    simpa using this
  unfold formatDiffOutput
  simp only [writeChanges_eq, hlen, blocks_congr noColor fmtFloat cl₁ cl₂ 0 h]


/-- C7, amended: the summary of an object is determined by the sequence of its
keys in the order they are visited: two objects whose keys are visited in the
same order get the same summary, whatever their values.  For two objects
that are equal as mappings, with n distinct keys: if n is at most 3, each
summary lists all keys of the object in the order visited, and the two key
sequences are permutations of each other; if n exceeds 3, each summary lists
the first 3 keys visited, 3 distinct keys of the object, followed by the same
count n; the two summaries are equal when n is at most 1.  The text of the
report is determined by the color setting and, for each change in order, its
kind, its path label and the summaries of its old and new values. -/
theorem formatValue_object_of_mapping (fmtFloat : Float64 → String) :
    (∀ o₁ o₂ : Obj, o₁.map Prod.fst = o₂.map Prod.fst →
      formatValue fmtFloat (.obj o₁) = formatValue fmtFloat (.obj o₂)) ∧
    (∀ o₁ o₂ : Obj, o₁.Perm o₂ → (o₁.map Prod.fst).Nodup →
      (o₁.length ≤ 1 → formatValue fmtFloat (.obj o₁) = formatValue fmtFloat (.obj o₂)) ∧
      (o₁.length ≤ 3 →
        formatValue fmtFloat (.obj o₁)
          = "map[" ++ ", ".intercalate (o₁.map Prod.fst) ++ "]" ∧
        formatValue fmtFloat (.obj o₂)
          = "map[" ++ ", ".intercalate (o₂.map Prod.fst) ++ "]" ∧
        (o₁.map Prod.fst).Perm (o₂.map Prod.fst)) ∧
      (3 < o₁.length →
        formatValue fmtFloat (.obj o₁)
          = "map[" ++ ", ".intercalate ((o₁.map Prod.fst).take 3)
              ++ "... (" ++ toString o₁.length ++ " keys)]" ∧
        formatValue fmtFloat (.obj o₂)
          = "map[" ++ ", ".intercalate ((o₂.map Prod.fst).take 3)
              ++ "... (" ++ toString o₁.length ++ " keys)]" ∧
        ((o₁.map Prod.fst).take 3).length = 3 ∧ ((o₂.map Prod.fst).take 3).length = 3 ∧
        ((o₁.map Prod.fst).take 3).Nodup ∧ ((o₂.map Prod.fst).take 3).Nodup ∧
        (∀ k ∈ (o₁.map Prod.fst).take 3, k ∈ o₁.map Prod.fst) ∧
        (∀ k ∈ (o₂.map Prod.fst).take 3, k ∈ o₁.map Prod.fst))) ∧
    (∀ (noColor : Bool) (cl₁ cl₂ : Changelog),
      cl₁.map (shownOf fmtFloat) = cl₂.map (shownOf fmtFloat) →
      formatDiffOutput noColor fmtFloat cl₁ = formatDiffOutput noColor fmtFloat cl₂) := by
  refine ⟨?_, ?_, fun noColor cl₁ cl₂ h => formatDiffOutput_congr noColor fmtFloat cl₁ cl₂ h⟩
  · intro o₁ o₂ hk
    simp [formatValue, hk]
  · intro o₁ o₂ h hnodup
    have hlen : o₁.length = o₂.length := h.length_eq
    have hkeys : (o₁.map Prod.fst).Perm (o₂.map Prod.fst) := h.map _
    have hnodup2 : (o₂.map Prod.fst).Nodup := hkeys.nodup_iff.mp hnodup
    refine ⟨?_, ?_, ?_⟩
    · intro h1
      match o₁, h, h1 with
      | [], h, _ => rw [List.nil_perm.mp h]
      | [x], h, _ => rw [List.singleton_perm.mp h]
      | _ :: _ :: _, _, h1 => simp at h1
    · intro h3
      have h3a : ¬ 3 < o₁.length := by omega
      have h3b : ¬ 3 < o₂.length := hlen ▸ h3a
      exact ⟨by simp [formatValue, h3a], by simp [formatValue, h3b], hkeys⟩
    · intro h3
      have h3b : 3 < o₂.length := hlen ▸ h3
      refine ⟨by simp [formatValue, h3], by simp [formatValue, h3b, hlen], ?_, ?_,
        hnodup.sublist (List.take_sublist 3 _), hnodup2.sublist (List.take_sublist 3 _),
        fun k hk => List.mem_of_mem_take hk,
        fun k hk => hkeys.mem_iff.mpr (List.mem_of_mem_take hk)⟩
      · simp only [List.length_take, List.length_map]
        omega
      · simp only [List.length_take, List.length_map]
        omega


/-- C7, amended, on concrete values: two objects with the same key order and
different values; the two objects of the counterexample; an object of 5 keys
and its reverse; two changelogs whose arrays differ in their elements. -/
theorem formatValue_object_of_mapping_witness :
    ([("a", Value.num f64One)].map Prod.fst = [("a", Value.num f64Two)].map Prod.fst ∧
      formatValue demoFmtFloat (.obj [("a", .num f64One)])
        = formatValue demoFmtFloat (.obj [("a", .num f64Two)])) ∧
    (List.Perm [("a", Value.num f64One), ("b", Value.num f64Two)]
        [("b", Value.num f64Two), ("a", Value.num f64One)] ∧
      ([("a", Value.num f64One), ("b", Value.num f64Two)].map Prod.fst).Nodup ∧
      [("a", Value.num f64One), ("b", Value.num f64Two)].length ≤ 3 ∧
      formatValue demoFmtFloat (.obj [("a", .num f64One), ("b", .num f64Two)])
        = "map[" ++ ", ".intercalate ["a", "b"] ++ "]" ∧
      formatValue demoFmtFloat (.obj [("b", .num f64Two), ("a", .num f64One)])
        = "map[" ++ ", ".intercalate ["b", "a"] ++ "]" ∧
      List.Perm ["a", "b"] ["b", "a"]) ∧
    (List.Perm [("a", Value.null), ("b", Value.null), ("c", Value.null), ("d", Value.null),
          ("e", Value.null)]
        [("e", Value.null), ("d", Value.null), ("c", Value.null), ("b", Value.null),
          ("a", Value.null)] ∧
      3 < [("a", Value.null), ("b", Value.null), ("c", Value.null), ("d", Value.null),
          ("e", Value.null)].length ∧
      formatValue demoFmtFloat (.obj [("a", .null), ("b", .null), ("c", .null), ("d", .null),
          ("e", .null)])
        = "map[" ++ ", ".intercalate ["a", "b", "c"] ++ "... (" ++ toString 5 ++ " keys)]" ∧
      formatValue demoFmtFloat (.obj [("e", .null), ("d", .null), ("c", .null), ("b", .null),
          ("a", .null)])
        = "map[" ++ ", ".intercalate ["e", "d", "c"] ++ "... (" ++ toString 5 ++ " keys)]") ∧
    ([(⟨UPDATE, ["x"], .arr [.num f64One], .arr []⟩ : Change)].map (shownOf demoFmtFloat)
        = [(⟨UPDATE, ["x"], .arr [.num f64Two], .arr []⟩ : Change)].map (shownOf demoFmtFloat) ∧
      formatDiffOutput true demoFmtFloat [⟨UPDATE, ["x"], .arr [.num f64One], .arr []⟩]
        = formatDiffOutput true demoFmtFloat [⟨UPDATE, ["x"], .arr [.num f64Two], .arr []⟩]) :=
  ⟨⟨rfl, (formatValue_object_of_mapping demoFmtFloat).1 _ _ rfl⟩,
    ⟨List.Perm.swap _ _ _, by decide, by decide,
      ((formatValue_object_of_mapping demoFmtFloat).2.1 _ _ (List.Perm.swap _ _ _)
        (by decide)).2.1 (by decide)⟩,
    ⟨(List.reverse_perm _).symm, by decide,
      (((formatValue_object_of_mapping demoFmtFloat).2.1
        [("a", Value.null), ("b", Value.null), ("c", Value.null), ("d", Value.null),
          ("e", Value.null)]
        [("e", Value.null), ("d", Value.null), ("c", Value.null), ("b", Value.null),
          ("a", Value.null)] (List.reverse_perm _).symm (by decide)).2.2 (by decide)).1,
      (((formatValue_object_of_mapping demoFmtFloat).2.1
        [("a", Value.null), ("b", Value.null), ("c", Value.null), ("d", Value.null),
          ("e", Value.null)]
        [("e", Value.null), ("d", Value.null), ("c", Value.null), ("b", Value.null),
          ("a", Value.null)] (List.reverse_perm _).symm (by decide)).2.2 (by decide)).2.1⟩,
    ⟨rfl, (formatValue_object_of_mapping demoFmtFloat).2.2 true _ _ rfl⟩⟩

/-! ## Seeding of the baseline -/

/-- After the first successful item the variable `preObj` is nil exactly when
the item was normalized to `null`. -/
theorem step_first_success_preObj (env : Env) (diffWithFirst noColor : Bool) (st : State)
    (item : String) (v : Value) (m : Option Obj)
    (h1 : st.heap = []) (h2 : st.preObj = none) (h3 : st.obj = none)
    (hn : normalize env item = .ok v) (hm : asMap v = some m) :
    (step env diffWithFirst noColor st item).preObj.isSome = m.isSome := by
  rcases step_cases env diffWithFirst noColor st item with
    ⟨msg, s, -, -, hsucc, -⟩ | ⟨v2, heap2, obj2, hn2, hs, -, e, -⟩
  · simp [succeeds, hn, hm] at hsucc
  · rw [hn] at hn2
    have hv : v = v2 := Except.ok.inj hn2
    subst hv
    rw [e, seedOrDiff_none env diffWithFirst noColor { st with heap := heap2, obj := obj2 } h2]
    rw [h1, h3] at hs
    cases v with
    | null =>
      simp only [storeValue, Except.ok.injEq, Prod.mk.injEq] at hs
      simp only [asMap, Option.some.injEq] at hm
      obtain ⟨rfl, rfl⟩ := hs
      subst hm
      simp [State.println, deepcopy]
    | obj kvs =>
      simp only [storeValue, Except.ok.injEq, Prod.mk.injEq] at hs
      simp only [asMap, Option.some.injEq] at hm
      obtain ⟨rfl, rfl⟩ := hs
      subst hm
      simp [State.println, deepcopy]
    | bool b => simp [asMap] at hm
    | num x => simp [asMap] at hm
    | str s => simp [asMap] at hm
    | arr xs => simp [asMap] at hm

/-- C4, as stated, fails: the item `null` is decoded and normalized
successfully, logs the waiting notice and writes no report, but the baseline
stays nil, and the next item logs the notice again and is the one that seeds
the baseline. -/
theorem null_item_does_not_seed_counterexample :
    succeeds demoEnv itemNull = true ∧
    normalize demoEnv itemNull = .ok .null ∧
    (mainLoop demoEnv false true State.init [itemNull]).preObj = none ∧
    (mainLoop demoEnv false true State.init [itemNull]).baseline = none ∧
    (mainLoop demoEnv false true State.init [itemNull]).logs
      = ["Starting kube-watch-neat-diff", "Watching resource, waiting for changes..."] ∧
    (mainLoop demoEnv false true State.init [itemNull, itemA1]).logs
      = ["Starting kube-watch-neat-diff", "Watching resource, waiting for changes...",
          "Watching resource, waiting for changes..."] ∧
    (mainLoop demoEnv false true State.init [itemNull, itemA1]).stdout = [] ∧
    (mainLoop demoEnv false true State.init [itemNull, itemA1]).baseline
      = some [("a", .num f64One)] :=
  ⟨by decide, rfl, rfl, rfl, by decide, by decide, rfl, rfl⟩

/-- C4, amended: in every run, if the first item that is decoded and
normalized successfully is an object, it seeds the baseline, which becomes a
non-nil map with the members of the item, and writes no report, only the
waiting notice on the log; if it is `null`, it also writes no report and only
the waiting notice, and the baseline stays nil.  Every report comes from a
call of the diff, and the diff is only called with a non-nil baseline; so a
run over k successfully processed items writes at most k - 1 reports. -/
theorem first_item_seeds_without_report (env : Env) (diffWithFirst noColor : Bool)
    (items : List String) :
    (mainLoop env diffWithFirst noColor State.init items).stdout.length
      ≤ (items.filter (succeeds env)).length - 1 ∧
    (mainLoop env diffWithFirst noColor State.init items).stdout.length
      ≤ (mainLoop env diffWithFirst noColor State.init items).diffCalls.length ∧
    (∀ c ∈ (mainLoop env diffWithFirst noColor State.init items).diffCalls, c.1 ≠ none) ∧
    (∀ (pre : List String) (item : String) (post : List String) (kvs : List (String × Value)),
      items = pre ++ item :: post → (∀ x ∈ pre, succeeds env x = false) →
      normalize env item = .ok (.obj kvs) →
      (mainLoop env diffWithFirst noColor State.init (pre ++ [item])).preObj ≠ none ∧
      (mainLoop env diffWithFirst noColor State.init (pre ++ [item])).baseline
        = some (mapSetAll [] kvs) ∧
      (mainLoop env diffWithFirst noColor State.init (pre ++ [item])).stdout = [] ∧
      (mainLoop env diffWithFirst noColor State.init (pre ++ [item])).diffCalls = [] ∧
      (mainLoop env diffWithFirst noColor State.init (pre ++ [item])).logs
        = (mainLoop env diffWithFirst noColor State.init pre).logs
          ++ ["Watching resource, waiting for changes..."]) ∧
    (∀ (pre : List String) (item : String) (post : List String),
      items = pre ++ item :: post → (∀ x ∈ pre, succeeds env x = false) →
      normalize env item = .ok .null →
      (mainLoop env diffWithFirst noColor State.init (pre ++ [item])).preObj = none ∧
      (mainLoop env diffWithFirst noColor State.init (pre ++ [item])).baseline = none ∧
      (mainLoop env diffWithFirst noColor State.init (pre ++ [item])).stdout = [] ∧
      (mainLoop env diffWithFirst noColor State.init (pre ++ [item])).diffCalls = [] ∧
      (mainLoop env diffWithFirst noColor State.init (pre ++ [item])).logs
        = (mainLoop env diffWithFirst noColor State.init pre).logs
          ++ ["Watching resource, waiting for changes..."]) := by
  obtain ⟨c1, -, c3, c4⟩ := counted_mainLoop env diffWithFirst noColor items
  refine ⟨c1, c3, c4, ?_, ?_⟩
  · intro pre item post kvs _ hpre hn
    obtain ⟨a1, a2, a3, a4, a5⟩ := mainLoop_all_fail env diffWithFirst noColor pre hpre
    obtain ⟨b1, -, b3, b4, b5⟩ := step_first_success env diffWithFirst noColor
      (mainLoop env diffWithFirst noColor State.init pre) item (.obj kvs)
      (some (mapSetAll [] kvs)) a1 a2 a3 hn rfl
    have b0 := step_first_success_preObj env diffWithFirst noColor
      (mainLoop env diffWithFirst noColor State.init pre) item (.obj kvs)
      (some (mapSetAll [] kvs)) a1 a2 a3 hn rfl
    rw [mainLoop_append]
    refine ⟨?_, b1, by rw [b3, a4], by rw [b4, a5], b5⟩
    intro hnone
    rw [hnone] at b0
    exact absurd b0 (by simp)
  · intro pre item post _ hpre hn
    obtain ⟨a1, a2, a3, a4, a5⟩ := mainLoop_all_fail env diffWithFirst noColor pre hpre
    obtain ⟨b1, -, b3, b4, b5⟩ := step_first_success env diffWithFirst noColor
      (mainLoop env diffWithFirst noColor State.init pre) item .null none a1 a2 a3 hn rfl
    have b0 := step_first_success_preObj env diffWithFirst noColor
      (mainLoop env diffWithFirst noColor State.init pre) item .null none a1 a2 a3 hn rfl
    rw [mainLoop_append]
    refine ⟨?_, b1, by rw [b3, a4], by rw [b4, a5], b5⟩
    simpa using b0


/-- C4, amended, on two streams that start with an item that is not an
object: the object `{"a":1}` after it seeds the baseline, the item `null`
after it leaves the baseline nil; neither writes a report. -/
theorem first_item_seeds_without_report_witness :
    (∀ x ∈ [itemArr], succeeds demoEnv x = false) ∧
    normalize demoEnv itemA1 = .ok (.obj [("a", .num f64One)]) ∧
    ((mainLoop demoEnv false true State.init ([itemArr] ++ [itemA1])).preObj ≠ none ∧
      (mainLoop demoEnv false true State.init ([itemArr] ++ [itemA1])).baseline
        = some (mapSetAll [] [("a", .num f64One)]) ∧
      (mainLoop demoEnv false true State.init ([itemArr] ++ [itemA1])).stdout = [] ∧
      (mainLoop demoEnv false true State.init ([itemArr] ++ [itemA1])).diffCalls = [] ∧
      (mainLoop demoEnv false true State.init ([itemArr] ++ [itemA1])).logs
        = (mainLoop demoEnv false true State.init [itemArr]).logs
          ++ ["Watching resource, waiting for changes..."]) ∧
    normalize demoEnv itemNull = .ok .null ∧
    ((mainLoop demoEnv false true State.init ([itemArr] ++ [itemNull])).preObj = none ∧
      (mainLoop demoEnv false true State.init ([itemArr] ++ [itemNull])).baseline = none ∧
      (mainLoop demoEnv false true State.init ([itemArr] ++ [itemNull])).stdout = [] ∧
      (mainLoop demoEnv false true State.init ([itemArr] ++ [itemNull])).diffCalls = [] ∧
      (mainLoop demoEnv false true State.init ([itemArr] ++ [itemNull])).logs
        = (mainLoop demoEnv false true State.init [itemArr]).logs
          ++ ["Watching resource, waiting for changes..."]) :=
  ⟨by decide, rfl,
    (first_item_seeds_without_report demoEnv false true [itemArr, itemA1, itemA2]).2.2.2.1
      [itemArr] itemA1 [itemA2] [("a", .num f64One)] rfl (by decide) rfl,
    rfl,
    (first_item_seeds_without_report demoEnv false true [itemArr, itemNull, itemA1]).2.2.2.2
      [itemArr] itemNull [itemA1] rfl (by decide) rfl⟩

end KubeWatch
